import Mathlib

/-!
Verification of the bulk-import argument pipeline of `src/omero/plugins/import.py`.

The development shallowly embeds the Python code: Python values become the
inductive `PyVal`, the mutable `CommandArguments` instance becomes the record
`CmdArgs` with explicit state passing, `ctx.die`/exceptions become `Except`,
and OS effects (current directory, open file handles, written files, the
external process's exit statuses) are threaded through an explicit `World`
record with an `Env` of oracles for the parts outside the repository
(file system contents, whether an `open` succeeds, the exit status of each
external invocation).
-/

set_option autoImplicit false

namespace OmeroImport

/-- Model of the Python values that flow through the import plugin: the
`NO_ARG` sentinel (`NO_ARG = object()` in the source), strings, booleans,
integers, lists and `None`. -/
inductive PyVal where
  | noArg
  | vstr (s : String)
  | vbool (b : Bool)
  | vint (n : Int)
  | vlist (l : List PyVal)
  | vnone

/-- Python truthiness (`bool(v)`).  `NO_ARG` is a plain `object()`, which is
truthy. -/
def PyVal.truthy : PyVal → Bool
  | .noArg => true
  | .vstr s => !s.isEmpty
  | .vbool b => b
  | .vint n => n != 0
  | .vlist l => !l.isEmpty
  | .vnone => false

mutual

/-- Python `str(v)`. -/
def PyVal.pyStr : PyVal → String
  | .noArg => "<object>"
  | .vstr s => s
  | .vbool b => if b then "True" else "False"
  | .vint n => if n < 0 then "-" ++ toString (-n).toNat else toString n.toNat
  | .vlist l => "[" ++ String.intercalate ", " (pyReprList l) ++ "]"
  | .vnone => "None"

/-- `repr` of each element of a list, as `str` of a Python list shows them. -/
def pyReprList : List PyVal → List String
  | [] => []
  | PyVal.vstr s :: vs => ("'" ++ s ++ "'") :: pyReprList vs
  | v :: vs => PyVal.pyStr v :: pyReprList vs

end

/-- The whitespace characters stripped by Python's `str.strip`. -/
def pyWhite (c : Char) : Bool :=
  c == ' ' || c == '\t' || c == '\n' || c == '\x0d' || c == '\x0b' || c == '\x0c'

/-- `List.isPrefixOf` on characters, by structural recursion. -/
def isPrefixList : List Char → List Char → Bool
  | [], _ => true
  | _ :: _, [] => false
  | p :: ps, c :: cs => p == c && isPrefixList ps cs

/-- `s.startswith(pre)`. -/
def strStartsWith (s pre : String) : Bool :=
  isPrefixList pre.data s.data

/-- `s.endswith(suffix)`. -/
def strEndsWith (s suffix : String) : Bool :=
  isPrefixList suffix.data.reverse s.data.reverse

/-- `s.lower()`. -/
def strToLower (s : String) : String :=
  String.mk (s.data.map Char.toLower)

/-- Split a character list at every character satisfying `p`, keeping empty
segments (the semantics of `str.split(p)`). -/
def splitCharsAux (p : Char → Bool) : List Char → List (List Char)
  | [] => [[]]
  | c :: rest =>
    match splitCharsAux p rest with
    | [] => [[]]
    | w :: ws => if p c then [] :: w :: ws else (c :: w) :: ws

/-- Split a string at every character satisfying `p`. -/
def strSplit (p : Char → Bool) (s : String) : List String :=
  (splitCharsAux p s.data).map String.mk

/-- Split at every occurrence of a (non-empty) pattern, scanning left to
right; the fuel argument makes the recursion structural and is instantiated
with the length of the input. -/
def splitOnAux (pat : List Char) : Nat → List Char → List (List Char)
  | 0, _ => [[]]
  | _, [] => [[]]
  | fuel + 1, c :: rest =>
    if isPrefixList pat (c :: rest) then
      [] :: splitOnAux pat fuel (List.drop (pat.length - 1) rest)
    else
      match splitOnAux pat fuel rest with
      | [] => [[]]
      | w :: ws => (c :: w) :: ws

/-- `s.split(pat)` for a non-empty separator pattern. -/
def strSplitOn (s pat : String) : List String :=
  (splitOnAux pat.data s.data.length s.data).map String.mk

/-- Substring test (`pat in s` for strings). -/
def containsSub (s pat : String) : Bool :=
  (strSplitOn s pat).length > 1

/-- Python `str.strip()`: remove leading and trailing whitespace. -/
def pyStrip (s : String) : String :=
  String.mk (((s.data.dropWhile pyWhite).reverse.dropWhile pyWhite).reverse)

/-- Python `str.rstrip()`: remove trailing whitespace only. -/
def pyRstrip (s : String) : String :=
  String.mk ((s.data.reverse.dropWhile pyWhite).reverse)

/-- `shlex.split` specialised to inputs without quoting or escape characters:
split on runs of whitespace, dropping empty words. -/
def shlexSplit (s : String) : List String :=
  (strSplit (fun c => pyWhite c) s).filter (fun w => !w.isEmpty)

/-- Remove one trailing line terminator, as `csv.reader` does per record. -/
def stripLineEnd (s : String) : String :=
  let cs := s.data.reverse
  let cs := if cs.head? = Option.some '\n' then cs.tail else cs
  let cs := if cs.head? = Option.some '\x0d' then cs.tail else cs
  String.mk cs.reverse

/-- One record of `csv.reader(data, delimiter=delim)` for a quote-free line. -/
def csvSplit (delim : Char) (line : String) : List String :=
  strSplit (fun c => c == delim) (stripLineEnd line)

/-- Python's membership test `x in v` as used by `set_skip_values`
(`'all' in skip`): list membership by equality, substring test for strings;
membership in a non-iterable raises `TypeError` in Python and is modelled
as `false` (no skip name matches). -/
def pyIn (x : String) (v : PyVal) : Bool :=
  match v with
  | PyVal.vlist l => l.any (fun e => match e with | PyVal.vstr s => x == s | _ => false)
  | PyVal.vstr s => containsSub s x
  | _ => false

/-- Python `template % n` for a template whose only conversion specifier is a
single `%s`: substitutes the decimal rendering of `n`.  A template with no
(or several) specifiers raises `TypeError` in Python; this is modelled as
`Except.error`. -/
def pyFormatNat (template : String) (n : Nat) : Except Unit String :=
  match strSplitOn template "%s" with
  | [a, b] => Except.ok (a ++ toString n ++ b)
  | _ => Except.error ()

/-- `"%x" % n`: lower-case hexadecimal rendering of a natural number. -/
def hexStr (n : Nat) : String :=
  String.mk (Nat.toDigits 16 n)

/-- `'"%s"' % x` applied to each element, joined by single spaces: the
dry-run command text built in `bulk_import`
(`rv = ['"%s"' % x for x in command_args.added_args()]; rv = " ".join(rv)`). -/
def quoteJoin (xs : List String) : String :=
  String.intercalate " " (xs.map (fun x => "\"" ++ x ++ "\""))

/-- `os.path.abspath` relative to an explicit current directory:
absolute paths are returned as given, relative ones are joined to `cwd`. -/
def abspath (cwd p : String) : String :=
  if strStartsWith p "/" then p else cwd ++ "/" ++ p

/-- `os.path.dirname` for slash-separated paths. -/
def dirname (p : String) : String :=
  let parts := strSplitOn p "/"
  if parts.length ≤ 1 then "" else String.intercalate "/" parts.dropLast

/-! ## Association-list model of Python dicts (insertion ordered) -/

/-- A YAML mapping / Python dict: association list in insertion order with
unique keys. -/
abbrev Dict := List (String × PyVal)

/-- First-match lookup, `d[k]` / `d.get(k)`. -/
def alookup {α : Type} : List (String × α) → String → Option α
  | [], _ => Option.none
  | e :: es, k => if e.1 = k then Option.some e.2 else alookup es k

/-- Python `d[k] = v`: replace in place if the key is present (keeping its
position), otherwise append. -/
def aset {α : Type} : List (String × α) → String → α → List (String × α)
  | [], k, v => [(k, v)]
  | e :: es, k, v => if e.1 = k then (k, v) :: es else e :: aset es k v

/-- Remove the (first) entry of a key, as `d.pop(k)` does on a dict with
unique keys. -/
def aerase {α : Type} : List (String × α) → String → List (String × α)
  | [], _ => []
  | e :: es, k => if e.1 = k then es else e :: aerase es k

/-- `d.pop(k)` (with default): the popped value, if any, and the remaining
dict. -/
def apop (d : Dict) (k : String) : Option PyVal × Dict :=
  (alookup d k, aerase d k)

/-- Python `d.update(e)`: assign every entry of `e` into `d`, in order. -/
def dictUpdate (d e : Dict) : Dict :=
  e.foldl (fun acc kv => aset acc kv.1 kv.2) d

/-- The merge of the include chain performed by `ImportControl.bulk_import`
(lines 651-653): `bulk = dict()`, then `bulk.update(data)` for the chain
entries in reversed order (deepest ancestor first, the root file last). -/
def mergeContents (contents : List Dict) : Dict :=
  contents.reverse.foldl (fun acc d => dictUpdate acc d) []

/-- Lookup through the chain as loaded, root file first: the value a key
merges to is its value in the first (closest-to-root) file that binds it. -/
def chainLookup : List Dict → String → Option PyVal
  | [], _ => Option.none
  | d :: rest, k =>
    match alookup d k with
    | Option.some v => Option.some v
    | Option.none => chainLookup rest k

/-! ## The CommandArguments instance -/

/-- Abnormal exits: `ctx.die(code, ...)` and the Python exceptions the
pipeline can raise.  `nonTermination` stands for an include chain on which
the `while bulkfile` loop never terminates (the model runs on fuel). -/
inductive PyErr where
  | die (code : Nat)
  | ioError (file : String)
  | typeError
  | indexError
  | nonTermination
deriving BEq, DecidableEq, Repr

/-- `CommandArguments.__py_keys` (lines 126-132): the option names consumed
by the Python orchestrator itself. -/
def py_keys : List String :=
  ["javahelp", "skip", "file", "errs", "logback",
   "port", "password", "group", "create", "func",
   "bulk", "prog", "user", "key", "path", "logprefix",
   "JAVA_DEBUG", "quiet", "server", "depth", "clientdir",
   "fetch_jars", "sudo"]

/-- The `NO_ARG` sentinel. -/
def NO_ARG : PyVal := PyVal.noArg

/-- `key.replace("_", "-")`: for the one-character pattern `"_"` this is a
character-wise substitution. -/
def underscoreToHyphen (s : String) : String :=
  String.mk (s.data.map (fun c => if c == '_' then '-' else c))

/-- `CommandArguments.build_arg_list` (lines 160-176).  A one-character key
renders as `-k`, followed by the value as a separate token when the value is
a string; a longer key has underscores replaced by hyphens and renders as
`--key=value` for a string value and as bare `--key` otherwise. -/
def build_arg_list (key : String) (val : PyVal) : List String :=
  if key.length = 1 then
    match val with
    | PyVal.noArg => ["-" ++ key]
    | PyVal.vstr s => ["-" ++ key, s]
    | _ => ["-" ++ key]
  else
    let key := underscoreToHyphen key
    match val with
    | PyVal.noArg => ["--" ++ key]
    | PyVal.vstr s => ["--" ++ key ++ "=" ++ s]
    | _ => ["--" ++ key]

/-- Python list slice assignment `l[idx:idx+len(new)] = new`, the operation
`CommandArguments.reset_arg` performs (line 158). -/
def reset_slice (l : List String) (idx : Nat) (new : List String) : List String :=
  l.take idx ++ new ++ l.drop (idx + new.length)

/-- The live state of one `CommandArguments` instance.  The private lists
`__java_initial`, `__java_additional`, `__py_initial`, `__py_additional` and
the index dict `__added` are fields; attributes set with `setattr` land in
`attrs`, except the three the code reads back by name (`self.path`,
`self.JAVA_DEBUG`, `self.dry_run`), which are fields of their own.
`argsFile`, `argsErrs`, `argsLogPfx` model `self.__args.file`,
`self.__args.errs` and `self.__args.logprefix` used by `open_files`. -/
structure CmdArgs where
  accepts : List String
  added : List (String × Nat)
  java_initial : List String
  java_additional : List String
  py_initial : List String
  py_additional : List String
  attrs : List (String × PyVal)
  path : PyVal
  JAVA_DEBUG : PyVal
  dry_run : PyVal
  argsFile : PyVal
  argsErrs : PyVal
  argsLogPfx : PyVal

/-- `setattr(self, key, val)`. -/
def CmdArgs.setattr (s : CmdArgs) (k : String) (v : PyVal) : CmdArgs :=
  if k = "path" then { s with path := v }
  else if k = "JAVA_DEBUG" then { s with JAVA_DEBUG := v }
  else if k = "dry_run" then { s with dry_run := v }
  else { s with attrs := aset s.attrs k v }

/-- `getattr(self, key)`, for the attributes the instance carries. -/
def CmdArgs.getattr (s : CmdArgs) (k : String) : Option PyVal :=
  if k = "path" then Option.some s.path
  else if k = "JAVA_DEBUG" then Option.some s.JAVA_DEBUG
  else if k = "dry_run" then Option.some s.dry_run
  else alookup s.attrs k

/-- `CommandArguments.add` (lines 212-235).  A Python-side key is stored on
the instance and rendered into `__py_additional`; an unknown key is fatal
(`ctx.die(200, ...)`); any other key is rendered into `__java_additional`.
A key seen before is re-rendered in place at its recorded index by
`reset_arg`; a new key is appended and its index recorded in `__added`. -/
def CmdArgs.add (s : CmdArgs) (key : String) (val : PyVal) : Except PyErr CmdArgs :=
  let idx? := alookup s.added key
  if key ∈ py_keys then
    let s := s.setattr key val
    match idx? with
    | Option.none =>
      let idx := s.py_additional.length
      Except.ok { s with py_additional := s.py_additional ++ build_arg_list key val,
                         added := s.added ++ [(key, idx)] }
    | Option.some idx =>
      Except.ok { s with py_additional := reset_slice s.py_additional idx (build_arg_list key val) }
  else if key ∈ s.accepts then
    match idx? with
    | Option.none =>
      let idx := s.java_additional.length
      Except.ok { s with java_additional := s.java_additional ++ build_arg_list key val,
                         added := s.added ++ [(key, idx)] }
    | Option.some idx =>
      Except.ok { s with java_additional := reset_slice s.java_additional idx (build_arg_list key val) }
  else Except.error (PyErr.die 200)

/-- `CommandArguments.set_path` (lines 178-182): fatal (`ctx.die(202, ...)`)
unless the argument is a list. -/
def CmdArgs.set_path (s : CmdArgs) (p : PyVal) : Except PyErr CmdArgs :=
  match p with
  | PyVal.vlist _ => Except.ok { s with path := p }
  | _ => Except.error (PyErr.die 202)

/-- `CommandArguments.set_skip_values` (lines 262-272): four conditional
appends to `__java_initial`, in this fixed order. -/
def CmdArgs.set_skip_values (s : CmdArgs) (skip : PyVal) : CmdArgs :=
  let ji := s.java_initial
  let ji := if pyIn "all" skip || pyIn "checksum" skip
            then ji ++ ["--checksum-algorithm=File-Size-64"] else ji
  let ji := if pyIn "all" skip || pyIn "thumbnails" skip
            then ji ++ ["--no-thumbnails"] else ji
  let ji := if pyIn "all" skip || pyIn "minmax" skip
            then ji ++ ["--no-stats-info"] else ji
  let ji := if pyIn "all" skip || pyIn "upgrade" skip
            then ji ++ ["--no-upgrade-check"] else ji
  { s with java_initial := ji }

/-- The iterable elements of `self.path` as they are spliced into the
argument vectors (`rv.extend(self.path)`): the elements of a list, the
characters of a string (Python iterates strings by character); iterating
anything else raises `TypeError` and cannot be reached through `set_path`. -/
def pathElems : PyVal → List PyVal
  | PyVal.vlist l => l
  | PyVal.vstr s => s.data.map (fun c => PyVal.vstr (String.singleton c))
  | _ => []

/-- `CommandArguments.java_args` (lines 184-194): the argument vector handed
to the external Java process (string conversion of the path entries models
the `str` coercion the process invocation applies). -/
def CmdArgs.java_args (s : CmdArgs) : List String :=
  s.java_initial ++ s.java_additional ++ (pathElems s.path).map PyVal.pyStr
    ++ (if s.JAVA_DEBUG.truthy then ["--debug=" ++ s.JAVA_DEBUG.pyStr] else [])

/-- `CommandArguments.added_args` (lines 202-207). -/
def CmdArgs.added_args (s : CmdArgs) : List String :=
  s.py_additional ++ s.java_additional ++ (pathElems s.path).map PyVal.pyStr

/-- The login values `set_login_arguments` obtains from `ctx.conn(args)`. -/
structure LoginInfo where
  host : String
  port : String
  session : String

/-- `getattr(args, k)` on the parsed-argument namespace, modelled as an
association list (`vars(args)`). -/
def argsLookup (args : List (String × PyVal)) (k : String) : PyVal :=
  (alookup args k).getD PyVal.vnone

/-- The part of `CommandArguments.__init__` that runs before the `vars(args)`
loop (lines 116-134): empty lists, then `set_login_arguments` (a `-h` for
`--javahelp`, and `-s host -p port -k session` when a connection is
required), then `set_skip_arguments`. -/
def initBase (login : LoginInfo) (args : List (String × PyVal)) : CmdArgs :=
  let s : CmdArgs :=
    { accepts := [], added := [], java_initial := [], java_additional := [],
      py_initial := [], py_additional := [], attrs := [],
      path := PyVal.vnone, JAVA_DEBUG := PyVal.vnone, dry_run := PyVal.vnone,
      argsFile := argsLookup args "file", argsErrs := argsLookup args "errs",
      argsLogPfx := argsLookup args "logprefix" }
  let s := if (argsLookup args "javahelp").truthy
           then { s with java_initial := s.java_initial ++ ["-h"] } else s
  let connReq := !(s.java_initial.contains "-h")
                 && !(argsLookup args "f").truthy
                 && !(argsLookup args "advanced_help").truthy
  let s := if connReq
           then { s with java_initial :=
                    s.java_initial ++ ["-s", login.host, "-p", login.port, "-k", login.session] }
           else s
  if (argsLookup args "skip").truthy then s.set_skip_values (argsLookup args "skip") else s

/-- One step of the `for key in vars(args)` loop of `__init__`
(lines 136-150). -/
def initStep (s : CmdArgs) (kv : String × PyVal) : CmdArgs :=
  let s := { s with accepts := s.accepts ++ [kv.1] }
  if kv.1 ∈ py_keys then
    let s := s.setattr kv.1 kv.2
    { s with py_initial := s.py_initial ++ build_arg_list kv.1 kv.2 }
  else if kv.2.truthy then
    { s with java_initial := s.java_initial ++ build_arg_list kv.1 kv.2 }
  else s

/-- `CommandArguments.__init__` (lines 116-150). -/
def cmdArgsInit (login : LoginInfo) (args : List (String × PyVal)) : CmdArgs :=
  args.foldl initStep (initBase login args)

/-! ## Row-source parsing (`parse_text` / `parse_shlex` / `parse_tsv` /
`parse_csv`, lines 754-773) -/

/-- The parsing strategy `parse_bulk` selects at lines 733-741: `parse_text`
when `cols` is falsy, otherwise `parse_tsv` / `parse_csv` by file suffix and
`parse_shlex` for every other suffix. -/
inductive Strategy where
  | text
  | shlexed
  | tsv
  | csv
deriving BEq, DecidableEq, Repr

/-- Strategy selection (lines 733-741). -/
def chooseStrategy (cols : PyVal) (pathName : String) : Strategy :=
  if !cols.truthy then Strategy.text
  else if strEndsWith pathName ".tsv" then Strategy.tsv
  else if strEndsWith pathName ".csv" then Strategy.csv
  else Strategy.shlexed

/-- `parse_text` with `parse=False`: each line is stripped and yielded as the
one-element list `[line]`. -/
def parseTextLines (lines : List String) : List (List PyVal) :=
  lines.map (fun line => [PyVal.vstr (pyStrip line)])

/-- `parse_shlex` (= `parse_text` with `parse=True`): each line is stripped,
split by `shlex`, and the resulting token list is yielded wrapped in a
one-element list (`yield [line]` where `line = shlex.split(line)`). -/
def parseShlexLines (lines : List String) : List (List PyVal) :=
  lines.map (fun line => [PyVal.vlist ((shlexSplit (pyStrip line)).map PyVal.vstr)])

/-- `parse_csv` / `parse_tsv`: each line split by the delimiter into its
fields. -/
def parseCsvLines (delim : Char) (lines : List String) : List (List PyVal) :=
  lines.map (fun line => (csvSplit delim line).map PyVal.vstr)

/-- The rows produced from the row-source file's lines under a strategy. -/
def rowsFor (strategy : Strategy) (lines : List String) : List (List PyVal) :=
  match strategy with
  | Strategy.text => parseTextLines lines
  | Strategy.shlexed => parseShlexLines lines
  | Strategy.tsv => parseCsvLines '\t' lines
  | Strategy.csv => parseCsvLines ',' lines

/-! ## The bulk run: `bulk_import` / `parse_bulk` / `do_import` -/

/-- The observable operating-system state threaded through a run. -/
structure World where
  cwd : String
  openFiles : List String
  outLines : List String
  errLines : List String
  written : List (String × String)
  rv : Nat
  nInvoked : Nat

/-- Oracles for everything outside the repository: the parsed content of a
descriptor file (`Option.none` = `open`/`safe_load` raises), the lines of a
row-source file, whether opening a file for writing succeeds, the exit
status of the n-th external process invocation, and `sys.argv[0]`. -/
structure Env where
  yaml : String → Option Dict
  rowLines : String → Option (List String)
  openOk : String → Bool
  statuses : Nat → Nat
  argv0 : String

/-- The include-chain walk of `bulk_import` (lines 638-649): absolutise the
file name against the current directory, load it, record
`(bulkfile, parent, data)`, follow a truthy `include` value, and `chdir` to
the parent after each load.  The `while` loop does not terminate on an
include cycle, hence the fuel; running out of fuel reports
`nonTermination`. -/
def walkLoad (env : Env) : Nat → String → World →
    Except (PyErr × World) (List (String × String × Dict) × World)
  | 0, _, w => Except.error (PyErr.nonTermination, w)
  | fuel + 1, bulkfile, w =>
    let bf := abspath w.cwd bulkfile
    let parent := dirname bf
    match env.yaml bf with
    | Option.none => Except.error (PyErr.ioError bf, w)
    | Option.some data =>
      let next := (alookup data "include").getD PyVal.vnone
      let w := { w with cwd := parent }
      if next.truthy then
        match next with
        | PyVal.vstr nxt =>
          match walkLoad env fuel nxt w with
          | Except.ok (rest, w') => Except.ok ((bf, parent, data) :: rest, w')
          | Except.error e => Except.error e
        | _ => Except.error (PyErr.typeError, w)
      else
        Except.ok ([(bf, parent, data)], w)

/-- The merge loop of `bulk_import` (lines 651-654): fold `dict.update` over
the chain in reversed order, `chdir`-ing to each entry's parent. -/
def mergePhase (contents : List (String × String × Dict)) (w : World) : Dict × World :=
  contents.reverse.foldl
    (fun acc e => (dictUpdate acc.1 e.2.2, { acc.2 with cwd := e.2.1 })) ([], w)

/-- `CommandArguments.open_log` (lines 280-289): nothing to open for a falsy
file value; otherwise prepend the prefix, absolutise, and open for writing
(the `openOk` oracle decides whether `open` raises). -/
def openLog (env : Env) (file pfx : PyVal) (w : World) :
    Except (PyErr × World) (Option String × World) :=
  if !file.truthy then Except.ok (Option.none, w)
  else
    let f := if pfx.truthy then pfx.pyStr ++ "/" ++ file.pyStr else file.pyStr
    let f := abspath w.cwd f
    if env.openOk f then
      Except.ok (Option.some f, { w with openFiles := w.openFiles ++ [f] })
    else Except.error (PyErr.ioError f, w)

/-- Close a possibly-`None` handle (`if out: out.close()`). -/
def closeH (h : Option String) (w : World) : World :=
  match h with
  | Option.none => w
  | Option.some f => { w with openFiles := w.openFiles.erase f }

/-- `ImportControl.do_import` (lines 605-623): open the two log handles,
launch the external process and wait for its status (`self.ctx.rv = p.wait()`),
closing in a `finally` whatever handles the variables `out` and `err` hold.
If opening the error log raises after the output log was opened, `out` and
`err` are still `None` (the tuple assignment never happened) and the
`finally` closes nothing. -/
def do_import (env : Env) (cargs : CmdArgs) (w : World) : Except (PyErr × World) World :=
  match openLog env cargs.argsFile cargs.argsLogPfx w with
  | Except.error e => Except.error e
  | Except.ok (out, w) =>
    match openLog env cargs.argsErrs cargs.argsLogPfx w with
    | Except.error e => Except.error e
    | Except.ok (err, w) =>
      let st := env.statuses w.nInvoked
      let w := { w with nInvoked := w.nInvoked + 1, rv := st }
      Except.ok (closeH err (closeH out w))

/-- The result of the first, non-row part of `parse_bulk` (lines 692-726). -/
structure SetupOut where
  cont : Bool
  cols : PyVal
  pathVal : PyVal
  cargs : CmdArgs

/-- `parse_bulk` lines 696-701: reset `command_args.dry_run` to `False`,
then accept any string whose lower-casing is not `"false"` (the value has
been passed through `str`). -/
def popDryRun (bulk : Dict) (cargs : CmdArgs) : Dict × CmdArgs :=
  let cargs := cargs.setattr "dry_run" (PyVal.vbool false)
  let (dryv, bulk) := apop bulk "dry_run"
  match dryv with
  | Option.some v =>
    (bulk,
     if strToLower v.pyStr ≠ "false" then cargs.setattr "dry_run" (PyVal.vstr v.pyStr)
     else cargs)
  | Option.none => (bulk, cargs)

/-- `parse_bulk` lines 703-707: a present `continue` key (whatever its
value) makes per-row errors non-fatal; a truthy value also forwards `-c`. -/
def popContinue (bulk : Dict) (cargs : CmdArgs) : Except PyErr (Bool × Dict × CmdArgs) :=
  let (contv, bulk) := apop bulk "continue"
  match contv with
  | Option.some c =>
    if c.truthy then
      match cargs.add "c" NO_ARG with
      | Except.ok cargs => Except.ok (true, bulk, cargs)
      | Except.error e => Except.error e
    else Except.ok (true, bulk, cargs)
  | Option.none => Except.ok (false, bulk, cargs)

/-- `parse_bulk` lines 709-710: a `skip` key re-derives the skip flags. -/
def popSkip (bulk : Dict) (cargs : CmdArgs) : Dict × CmdArgs :=
  let (skipv, bulk) := apop bulk "skip"
  match skipv with
  | Option.some v => (bulk, cargs.set_skip_values v)
  | Option.none => (bulk, cargs)

/-- `parse_bulk` up to the row loop (lines 692-726): process the reserved
keys `dry_run`, `continue`, `skip`; a missing `path` is fatal
(`ctx.die(107, ...)`); `columns` and `include` are popped; every remaining
key is handed to `command_args.add`. -/
def parseBulkSetup (bulk : Dict) (cargs : CmdArgs) : Except PyErr SetupOut := do
  let (bulk, cargs) := popDryRun bulk cargs
  let (cont, bulk, cargs) ← popContinue bulk cargs
  let (bulk, cargs) := popSkip bulk cargs
  let (pathv, bulk) := apop bulk "path"
  match pathv with
  | Option.none => Except.error (PyErr.die 107)
  | Option.some pathVal => do
    let (colsv, bulk) := apop bulk "columns"
    let cols := colsv.getD PyVal.vnone
    let (_, bulk) := apop bulk "include"
    let cargs ← bulk.foldlM (fun c kv => c.add kv.1 kv.2) cargs
    pure { cont := cont, cols := cols, pathVal := pathVal, cargs := cargs }

/-- The per-row argument application of `parse_bulk` (lines 743-751): with no
columns the whole row becomes the path list; with columns, each field goes to
`set_path` (for the column literally named `path`) or to `add`; a row shorter
than the column list raises `IndexError`. -/
def applyCols (parts : List PyVal) : CmdArgs → Nat → List PyVal → Except PyErr CmdArgs
  | cargs, _, [] => Except.ok cargs
  | cargs, idx, c :: rest =>
    match parts[idx]? with
    | Option.none => Except.error PyErr.indexError
    | Option.some pv =>
      let step : Except PyErr CmdArgs :=
        match c with
        | PyVal.vstr colName =>
          if colName = "path" then cargs.set_path (PyVal.vlist [pv])
          else cargs.add colName pv
        | _ => Except.error PyErr.typeError
      match step with
      | Except.ok cargs' => applyCols parts cargs' (idx + 1) rest
      | Except.error e => Except.error e

/-- Apply one row to the argument set. -/
def applyRow (cargs : CmdArgs) (cols : PyVal) (parts : List PyVal) : Except PyErr CmdArgs :=
  if !cols.truthy then cargs.set_path (PyVal.vlist parts)
  else
    match cols with
    | PyVal.vlist colList => applyCols parts cargs 0 colList
    | _ => Except.error PyErr.typeError

/-- The body of `bulk_import`'s `for cont in self.parse_bulk(...)` loop
(lines 659-688), run once per row after the row has been applied: dry-run
rows print or write the rendered command text, other rows invoke the
external process; a nonzero status bumps the failure count and status sum
and is fatal (`ctx.die(106, ...)`) unless `cont`; each iteration ends with
`self.ctx.rv = total` and, once anything failed, an err line with the
failure count in `%x` format. -/
def rowBody (env : Env) (cont : Bool) (cargs : CmdArgs) (incr failed total : Nat)
    (w : World) : Except (PyErr × World) (Nat × Nat × World) :=
  let afterImport : Except (PyErr × World) World :=
    if cargs.dry_run.truthy then
      let rv := quoteJoin cargs.added_args
      if strToLower cargs.dry_run.pyStr == "true" then
        Except.ok { w with outLines := w.outLines ++ [rv] }
      else
        match pyFormatNat cargs.dry_run.pyStr incr with
        | Except.error _ => Except.error (PyErr.typeError, w)
        | Except.ok fname =>
          let fname := abspath w.cwd fname
          if env.openOk fname then
            Except.ok { w with written :=
              w.written ++ [(fname, env.argv0 ++ " import " ++ rv ++ "\n")] }
          else Except.error (PyErr.ioError fname, w)
    else
      do_import env cargs w
  match afterImport with
  | Except.error e => Except.error e
  | Except.ok w =>
    let (failed, total, w) :=
      if w.rv ≠ 0 then
        let failed := failed + 1
        let total := total + w.rv
        if cont then
          (failed, total,
           { w with errLines := w.errLines ++
               ["Import failed with error code: " ++ toString w.rv ++ ". Continuing"] })
        else (failed, total, w)
      else (failed, total, w)
    if w.rv ≠ 0 ∧ ¬ cont then
      Except.error (PyErr.die 106, w)
    else
      let w := { w with rv := total }
      let w := if failed ≠ 0
               then { w with errLines := w.errLines ++ [hexStr failed ++ " failed imports"] }
               else w
      Except.ok (failed, total, w)

/-- The row loop: apply each row (`parse_bulk`'s generator resumes, lines
743-752), then run the loop body. -/
def rowLoop (env : Env) (cont : Bool) (cols : PyVal) :
    List (List PyVal) → CmdArgs → Nat → Nat → Nat → World →
    Except (PyErr × World) (CmdArgs × World)
  | [], cargs, _, _, _, w => Except.ok (cargs, w)
  | parts :: rest, cargs, incr, failed, total, w =>
    match applyRow cargs cols parts with
    | Except.error e => Except.error (e, w)
    | Except.ok cargs =>
      let incr := incr + 1
      match rowBody env cont cargs incr failed total w with
      | Except.error e => Except.error e
      | Except.ok (failed, total, w) => rowLoop env cont cols rest cargs incr failed total w

/-- The body of `bulk_import`'s `try` (lines 638-688): walk and load the
include chain, merge it, run `parse_bulk`'s setup, read the row-source file
and loop over its rows. -/
def bulkBody (env : Env) (fuel : Nat) (cargs : CmdArgs) (w : World) :
    Except (PyErr × World) (CmdArgs × World) := do
  let bulkv := (cargs.getattr "bulk").getD PyVal.vnone
  let (contents, w) ←
    if bulkv.truthy then
      match bulkv with
      | PyVal.vstr bf => walkLoad env fuel bf w
      | _ => Except.error (PyErr.typeError, w)
    else pure ([], w)
  let (bulk, w) := mergePhase contents w
  match parseBulkSetup bulk cargs with
  | Except.error e => Except.error (e, w)
  | Except.ok setup =>
    match setup.pathVal with
    | PyVal.vstr pathName =>
      match env.rowLines (abspath w.cwd pathName) with
      | Option.none => Except.error (PyErr.ioError (abspath w.cwd pathName), w)
      | Option.some lines =>
        let rows := rowsFor (chooseStrategy setup.cols pathName) lines
        rowLoop env setup.cont setup.cols rows setup.cargs 0 0 0 w
    | _ => Except.error (PyErr.typeError, w)

/-- `ImportControl.bulk_import` (lines 625-690): run the body and restore the
original working directory in the `finally`, on success and on every
abnormal exit alike. -/
def bulk_import (env : Env) (fuel : Nat) (cargs : CmdArgs) (w : World) :
    Except PyErr CmdArgs × World :=
  let old_pwd := w.cwd
  match bulkBody env fuel cargs w with
  | Except.ok (c, w') => (Except.ok c, { w' with cwd := old_pwd })
  | Except.error (e, w') => (Except.error e, { w' with cwd := old_pwd })

/-! ## Concrete instances and derived quantities used by the theorems -/

/-- Root descriptor of the spec's merge example: `A = {x: 1, include: B}`. -/
def exDictA : Dict := [("x", PyVal.vint 1), ("include", PyVal.vstr "b.yml")]

/-- Included descriptor of the spec's merge example: `B = {x: 2, y: 3}`. -/
def exDictB : Dict := [("x", PyVal.vint 2), ("y", PyVal.vint 3)]

/-- A file system holding the two example descriptors. -/
def exEnvInclude : Env :=
  { yaml := fun f =>
      if f = "/data/a.yml" then Option.some exDictA
      else if f = "/data/b.yml" then Option.some exDictB
      else Option.none,
    rowLines := fun _ => Option.none,
    openOk := fun _ => true,
    statuses := fun _ => 0,
    argv0 := "omero" }

/-- A fresh world before a run. -/
def exWorld : World :=
  { cwd := "/", openFiles := [], outLines := [], errLines := [], written := [],
    rv := 0, nInvoked := 0 }

/-- A blank argument set, used by concrete witnesses. -/
def exCmdArgsEmpty : CmdArgs :=
  { accepts := [], added := [], java_initial := [], java_additional := [],
    py_initial := [], py_additional := [], attrs := [], path := PyVal.vlist [],
    JAVA_DEBUG := PyVal.vnone, dry_run := PyVal.vbool false,
    argsFile := PyVal.vnone, argsErrs := PyVal.vnone, argsLogPfx := PyVal.vnone }

/-- The four skip shortcuts, in the order the code tests them, with the flag
each appends. -/
def skipVocab : List (String × String) :=
  [("checksum", "--checksum-algorithm=File-Size-64"),
   ("thumbnails", "--no-thumbnails"),
   ("minmax", "--no-stats-info"),
   ("upgrade", "--no-upgrade-check")]

/-- The concatenated renditions of a list of (key, value) add entries. -/
def joinRend (es : List (String × PyVal)) : List String :=
  (es.map (fun e => build_arg_list e.1 e.2)).flatten

/-- The start index of each entry's rendition inside `joinRend`, as
`CommandArguments.add` records them in `__added`. -/
def offsetsFrom (n : Nat) : List (String × PyVal) → List (String × Nat)
  | [] => []
  | e :: es => (e.1, n) :: offsetsFrom (n + (build_arg_list e.1 e.2).length) es

/-- Argument set accepting the external keys `d` and `T`, for the C2
counterexample and witness. -/
def exCmdArgsDT : CmdArgs :=
  { exCmdArgsEmpty with accepts := ["d", "T"] }

/-- Run a sequence of `CommandArguments.add` calls (as `parse_bulk` and the
row loop do). -/
def runAdds (s : CmdArgs) : List (String × PyVal) → Except PyErr CmdArgs
  | [] => Except.ok s
  | op :: ops =>
    match s.add op.1 op.2 with
    | Except.ok s' => runAdds s' ops
    | Except.error e => Except.error e

/-- The adds whose key is not an orchestrator key. -/
def filterJava (ops : List (String × PyVal)) : List (String × PyVal) :=
  ops.filter (fun op => !py_keys.contains op.1)

/-- The value of the last add of a key in a sequence. -/
def lastVal (k : String) : List (String × PyVal) → Option PyVal
  | [] => Option.none
  | op :: ops =>
    match lastVal k ops with
    | Option.some v => Option.some v
    | Option.none => if op.1 = k then Option.some op.2 else Option.none

/-- Agreement on everything the external flag lists are built from. -/
def JavaEq (s t : CmdArgs) : Prop :=
  s.accepts = t.accepts
  ∧ s.java_initial = t.java_initial
  ∧ s.java_additional = t.java_additional
  ∧ ∀ k, k ∉ py_keys → alookup s.added k = alookup t.added k

/-- Login values for the C8 witness. -/
def exLogin : LoginInfo := { host := "h", port := "4064", session := "sess" }

/-- Parsed arguments for the C8 witness: a mix of orchestrator keys
(`bulk`, `file`, `path`, ...), falsy external options and one truthy
external option (`name`). -/
def exArgs : List (String × PyVal) :=
  [("javahelp", PyVal.vbool false), ("f", PyVal.vbool false),
   ("advanced_help", PyVal.vbool false), ("skip", PyVal.vnone),
   ("bulk", PyVal.vstr "b.yml"), ("file", PyVal.vnone), ("errs", PyVal.vnone),
   ("logprefix", PyVal.vnone), ("path", PyVal.vlist []),
   ("JAVA_DEBUG", PyVal.vnone), ("T", PyVal.vnone), ("d", PyVal.vnone),
   ("depth", PyVal.vint 4), ("name", PyVal.vstr "img1")]

/-- Adds for the C8 witness: one orchestrator key, one external key. -/
def exOps : List (String × PyVal) :=
  [("file", PyVal.vstr "out.log"), ("d", PyVal.vstr "2")]

/-- The status sum of the next `len` external invocations (the claim's
"running status-code sum"). -/
def sumStatuses (env : Env) (n : Nat) : Nat → Nat
  | 0 => 0
  | len + 1 => env.statuses n + sumStatuses env (n + 1) len

/-- How many of the next `len` external invocations fail (the claim's
"count of failed rows"). -/
def countFails (env : Env) (n : Nat) : Nat → Nat
  | 0 => 0
  | len + 1 => (if env.statuses n ≠ 0 then 1 else 0) + countFails env (n + 1) len

/-- The per-row warning `bulk_import` logs for a non-fatal failure. -/
def contMsg (st : Nat) : String :=
  "Import failed with error code: " ++ toString st ++ ". Continuing"

/-- The aggregate failure report (`"%x failed imports"`). -/
def failMsg (failed : Nat) : String :=
  hexStr failed ++ " failed imports"

/-- The dry-run command text of one row: `" ".join('"%s"' % x for x in
command_args.added_args())` after the row's parts became the path. -/
def dryText (cargs : CmdArgs) (parts : List PyVal) : String :=
  quoteJoin (cargs.py_additional ++ cargs.java_additional ++ parts.map PyVal.pyStr)

/-- The per-row files a dry run with filename template `a ++ "%s" ++ b`
writes: the `n`-th row (1-based sequence number `incr + n`) goes to the
template instantiated with its sequence number, holding
`print(sys.argv[0], "import", rv, file=o)`. -/
def dryFiles (env : Env) (cargs : CmdArgs) (cwd a b : String) :
    Nat → List (List PyVal) → List (String × String)
  | _, [] => []
  | incr, parts :: rest =>
    (abspath cwd (a ++ toString (incr + 1) ++ b),
     env.argv0 ++ " import " ++ dryText cargs parts ++ "
")
      :: dryFiles env cargs cwd a b (incr + 1) rest

/-- Oracles for the C4 example: three rows, the second external invocation
exits with status 7, the others succeed. -/
def c4env : Env :=
  { yaml := fun _ => Option.none, rowLines := fun _ => Option.none,
    openOk := fun _ => true,
    statuses := fun n => if n = 1 then 7 else 0, argv0 := "omero" }

/-- A command-argument state with `dry_run = False` and `-c` accepted. -/
def c4cargs : CmdArgs :=
  { accepts := ["c"], added := [], java_initial := [], java_additional := [],
    py_initial := [], py_additional := [], attrs := [], path := PyVal.vnone,
    JAVA_DEBUG := PyVal.vnone, dry_run := PyVal.vbool false,
    argsFile := PyVal.vnone, argsErrs := PyVal.vnone, argsLogPfx := PyVal.vnone }

/-- A pristine world: no open handles, nothing invoked yet. -/
def c4world : World :=
  { cwd := "/w", openFiles := [], outLines := [], errLines := [], written := [],
    rv := 0, nInvoked := 0 }

/-- Three one-column rows. -/
def c4rows : List (List PyVal) :=
  [[PyVal.vstr "a.tif"], [PyVal.vstr "b.tif"], [PyVal.vstr "c.tif"]]

/-- A command-argument state whose `dry_run` is the case-insensitive
`"True"`. -/
def c5cargsOut : CmdArgs :=
  { c4cargs with dry_run := PyVal.vstr "True" }

/-- A command-argument state whose `dry_run` is the filename template
`/tmp/%s.sh`. -/
def c5cargsFile : CmdArgs :=
  { c4cargs with dry_run := PyVal.vstr "/tmp/%s.sh" }

/-- Oracles for the C5 counterexample: a descriptor declaring
`dry_run: ''` (the empty string — not `false`) and one row. -/
def c5cexEnv : Env :=
  { yaml := fun f => if f = "/w/b.yml" then
      Option.some [("dry_run", PyVal.vstr ""), ("path", PyVal.vstr "rows.txt")]
    else Option.none,
    rowLines := fun f => if f = "/w/rows.txt" then Option.some ["a.tif"]
      else Option.none,
    openOk := fun _ => true, statuses := fun _ => 0, argv0 := "omero" }

/-- A command-argument state pointing at the descriptor `b.yml`. -/
def c5cexCargs : CmdArgs :=
  { c4cargs with attrs := [("bulk", PyVal.vstr "b.yml")] }

/-- Oracles for the C9 scenario: the descriptor names a row file; opening
`/w/err.log` for writing raises, any other `open` succeeds. -/
def c9env : Env :=
  { yaml := fun f => if f = "/w/b.yml" then
      Option.some [("path", PyVal.vstr "rows.txt")]
    else Option.none,
    rowLines := fun f => if f = "/w/rows.txt" then Option.some ["a.tif"]
      else Option.none,
    openOk := fun f => if f = "/w/err.log" then false else true,
    statuses := fun _ => 0, argv0 := "omero" }

/-- A command-argument state with `--file=out.log --errs=err.log`, pointing
at the descriptor `b.yml`. -/
def c9cargs : CmdArgs :=
  { c4cargs with
    attrs := [("bulk", PyVal.vstr "b.yml")],
    argsFile := PyVal.vstr "out.log",
    argsErrs := PyVal.vstr "err.log" }

/-! ## Association-list lemmas -/

theorem alookup_aset {α : Type} (d : List (String × α)) (k k' : String) (v : α) :
    alookup (aset d k v) k' = if k' = k then Option.some v else alookup d k' := by
  induction d with
  | nil =>
    by_cases h : k' = k
    · simp [aset, alookup, h]
    · have h2 : ¬ k = k' := fun hk => h hk.symm
      simp [aset, alookup, h, h2]
  | cons e es ih =>
    by_cases he : e.1 = k
    · by_cases h : k' = k
      · simp [aset, alookup, he, h]
      · have h2 : ¬ k = k' := fun hk => h hk.symm
        have h3 : ¬ e.1 = k' := fun hk => h (hk.symm.trans he)
        simp [aset, alookup, he, h, h2, h3]
    · by_cases h : e.1 = k'
      · have h2 : ¬ k' = k := fun hk => he (h.trans hk)
        simp [aset, alookup, he, h, h2]
      · simp [aset, alookup, he, h, ih]

theorem alookup_none_of_not_mem {α : Type} (d : List (String × α)) (k : String)
    (h : k ∉ d.map Prod.fst) : alookup d k = Option.none := by
  induction d with
  | nil => rfl
  | cons e es ih =>
    have h1 : ¬ e.1 = k := by
      intro hk
      exact h (by rw [List.map_cons, hk]; exact List.mem_cons_self _ _)
    have h2 : k ∉ es.map Prod.fst := by
      intro hm
      exact h (by rw [List.map_cons]; exact List.mem_cons_of_mem _ hm)
    simp [alookup, h1, ih h2]

theorem alookup_dictUpdate (d e : Dict) (k : String)
    (he : (e.map Prod.fst).Nodup) :
    alookup (dictUpdate d e) k =
      match alookup e k with
      | Option.some v => Option.some v
      | Option.none => alookup d k := by
  induction e generalizing d with
  | nil => simp [dictUpdate, alookup]
  | cons x xs ih =>
    have hx : (xs.map Prod.fst).Nodup := (List.nodup_cons.mp (by simpa using he)).2
    have hnotin : x.1 ∉ xs.map Prod.fst := (List.nodup_cons.mp (by simpa using he)).1
    show alookup (dictUpdate (aset d x.1 x.2) xs) k = _
    rw [ih _ hx]
    by_cases h : k = x.1
    · subst h
      rw [alookup_none_of_not_mem xs _ hnotin]
      simp [alookup, alookup_aset]
    · have h1 : ¬ x.1 = k := fun hk => h hk.symm
      simp [alookup, alookup_aset, h, h1]

theorem mergeContents_cons (d : Dict) (rest : List Dict) :
    mergeContents (d :: rest) = dictUpdate (mergeContents rest) d := by
  simp [mergeContents, List.reverse_cons, List.foldl_append]

theorem pyIn_map_vstr (l : List String) (x : String) :
    pyIn x (PyVal.vlist (l.map PyVal.vstr)) = l.contains x := by
  induction l with
  | nil => rfl
  | cons a l ih =>
    show (x == a || pyIn x (PyVal.vlist (l.map PyVal.vstr))) = (x == a || l.contains x)
    rw [ih]

/-! ## Claim C1: include-chain merge precedence -/

/-- **C1**: the merged configuration of an include chain (root file first, as
`bulk_import`'s `while` loop records it) gives every key the value of the
file closest to the root that binds it — the reversed `update` fold makes the
descendant win; in particular the chain `A = {x: 1, include: B}`,
`B = {x: 2, y: 3}` loads as `[A, B]` and merges (once the reserved `include`
key is popped by `parse_bulk`) to `{x: 1, y: 3}`. -/
theorem bulk_include_merge_precedence :
    (∀ (contents : List Dict), (∀ d ∈ contents, (d.map Prod.fst).Nodup) →
      ∀ k, alookup (mergeContents contents) k = chainLookup contents k)
    ∧ walkLoad exEnvInclude 5 "/data/a.yml" exWorld
        = Except.ok ([("/data/a.yml", "/data", exDictA), ("/data/b.yml", "/data", exDictB)],
            { exWorld with cwd := "/data" })
    ∧ mergeContents [exDictA, exDictB]
        = [("x", PyVal.vint 1), ("y", PyVal.vint 3), ("include", PyVal.vstr "b.yml")]
    ∧ aerase (mergeContents [exDictA, exDictB]) "include"
        = [("x", PyVal.vint 1), ("y", PyVal.vint 3)] := by
  refine ⟨?_, rfl, rfl, rfl⟩
  intro contents h k
  induction contents with
  | nil => rfl
  | cons d rest ih =>
    rw [mergeContents_cons,
        alookup_dictUpdate _ _ _ (h d (List.mem_cons_self _ _)),
        ih (fun d' hd' => h d' (List.mem_cons_of_mem _ hd'))]
    show _ = chainLookup (d :: rest) k
    simp only [chainLookup]

/-- Witness for C1's general conjunct at the example chain. -/
theorem bulk_include_merge_precedence_witness :
    alookup (mergeContents [exDictA, exDictB]) "x" = chainLookup [exDictA, exDictB] "x"
    ∧ alookup (mergeContents [exDictA, exDictB]) "y" = chainLookup [exDictA, exDictB] "y" := by
  have hnd : ∀ d ∈ [exDictA, exDictB], (d.map Prod.fst).Nodup := by
    intro d hd
    rcases List.mem_cons.mp hd with h | hd'
    · subst h
      decide
    · rcases List.mem_cons.mp hd' with h | h
      · subst h
        decide
      · cases h
  have h := bulk_include_merge_precedence.1 [exDictA, exDictB] hnd
  exact ⟨h "x", h "y"⟩

/-! ## Claim C3: the rendering rule for (key, value) pairs -/

/-- **C3**: `build_arg_list` renders a one-character key as `-k` plus the
value as its own token when the value is a string, and as bare `-k` with no
value or a non-string value; a longer key has underscores replaced by
hyphens and renders as the single token `--key=value` for a string value and
as bare `--key` otherwise. -/
theorem build_arg_list_rendering (k : String) :
    (k.length = 1 →
      (∀ v, build_arg_list k (PyVal.vstr v) = ["-" ++ k, v]) ∧
      build_arg_list k NO_ARG = ["-" ++ k] ∧
      (∀ v, (∀ s, v ≠ PyVal.vstr s) → build_arg_list k v = ["-" ++ k])) ∧
    (2 ≤ k.length →
      (∀ v, build_arg_list k (PyVal.vstr v) = ["--" ++ underscoreToHyphen k ++ "=" ++ v]) ∧
      build_arg_list k NO_ARG = ["--" ++ underscoreToHyphen k] ∧
      (∀ v, (∀ s, v ≠ PyVal.vstr s) → build_arg_list k v = ["--" ++ underscoreToHyphen k])) := by
  constructor
  · intro h1
    refine ⟨fun v => by simp [build_arg_list, h1], by simp [build_arg_list, NO_ARG, h1],
      fun v hv => ?_⟩
    cases v with
    | vstr s => exact absurd rfl (hv s)
    | _ => simp [build_arg_list, h1]
  · intro h2
    have h1 : ¬ k.length = 1 := by omega
    refine ⟨fun v => by simp [build_arg_list, h1], by simp [build_arg_list, NO_ARG, h1],
      fun v hv => ?_⟩
    cases v with
    | vstr s => exact absurd rfl (hv s)
    | _ => simp [build_arg_list, h1]

/-- Witness for C3 at concrete keys and values. -/
theorem build_arg_list_rendering_witness :
    build_arg_list "d" (PyVal.vstr "2") = ["-d", "2"]
    ∧ build_arg_list "c" NO_ARG = ["-c"]
    ∧ build_arg_list "c" (PyVal.vbool true) = ["-c"]
    ∧ build_arg_list "plate_name" (PyVal.vstr "P1") = ["--plate-name=P1"]
    ∧ build_arg_list "report" (PyVal.vbool true) = ["--report"] := by
  refine ⟨((build_arg_list_rendering "d").1 (by decide)).1 "2",
    ((build_arg_list_rendering "c").1 (by decide)).2.1,
    ((build_arg_list_rendering "c").1 (by decide)).2.2 _ (fun s h => PyVal.noConfusion h),
    ?_, ?_⟩
  · exact (((build_arg_list_rendering "plate_name").2 (by decide)).1 "P1").trans (by decide)
  · exact (((build_arg_list_rendering "report").2 (by decide)).2.2 _
      (fun s h => PyVal.noConfusion h)).trans (by decide)

/-! ## Claim C7: skip-shortcut expansion -/

/-- **C7**: `set_skip_values` appends to `initial arguments`, in the fixed
order checksum, thumbnails, minmax, upgrade, exactly the flag of each
shortcut present directly or implied by `all`; the result depends only on
membership (not on input order), and `skip=["all"]` produces exactly the
flags of `skip=["checksum","thumbnails","minmax","upgrade"]`. -/
theorem skip_expansion (s : CmdArgs) (skip : List String) :
    (s.set_skip_values (PyVal.vlist (skip.map PyVal.vstr))).java_initial
      = s.java_initial ++
        ((skipVocab.filter (fun p => skip.contains "all" || skip.contains p.1)).map Prod.snd)
    ∧ (∀ skip₂ : List String, (∀ x, x ∈ skip ↔ x ∈ skip₂) →
        (s.set_skip_values (PyVal.vlist (skip.map PyVal.vstr))).java_initial
          = (s.set_skip_values (PyVal.vlist (skip₂.map PyVal.vstr))).java_initial)
    ∧ (s.set_skip_values (PyVal.vlist [PyVal.vstr "all"])).java_initial
        = (s.set_skip_values (PyVal.vlist
            (["checksum", "thumbnails", "minmax", "upgrade"].map PyVal.vstr))).java_initial := by
  have hin : ∀ (l : List String) (x : String),
      pyIn x (PyVal.vlist (l.map PyVal.vstr)) = l.contains x := pyIn_map_vstr
  refine ⟨?_, fun skip₂ hiff => ?_, rfl⟩
  · simp only [CmdArgs.set_skip_values, hin]
    by_cases m0 : "all" ∈ skip <;>
      by_cases m1 : "checksum" ∈ skip <;>
      by_cases m2 : "thumbnails" ∈ skip <;>
      by_cases m3 : "minmax" ∈ skip <;>
      by_cases m4 : "upgrade" ∈ skip <;>
      simp [skipVocab, List.elem_eq_mem, m0, m1, m2, m3, m4]
  · have hc : ∀ x, skip.contains x = skip₂.contains x := by
      intro x
      show List.elem x skip = List.elem x skip₂
      rw [List.elem_eq_mem, List.elem_eq_mem]
      exact decide_eq_decide.mpr (hiff x)
    simp only [CmdArgs.set_skip_values, hin, hc]

/-- Witness for C7, including the spec's `all` example and an order swap. -/
theorem skip_expansion_witness :
    (exCmdArgsEmpty.set_skip_values (PyVal.vlist [PyVal.vstr "all"])).java_initial
      = ["--checksum-algorithm=File-Size-64", "--no-thumbnails", "--no-stats-info",
         "--no-upgrade-check"]
    ∧ (exCmdArgsEmpty.set_skip_values
          (PyVal.vlist [PyVal.vstr "upgrade", PyVal.vstr "checksum"])).java_initial
      = (exCmdArgsEmpty.set_skip_values
          (PyVal.vlist [PyVal.vstr "checksum", PyVal.vstr "upgrade"])).java_initial := by
  constructor
  · have h := (skip_expansion exCmdArgsEmpty ["all"]).1
    simpa [skipVocab, exCmdArgsEmpty] using h
  · exact (skip_expansion exCmdArgsEmpty ["upgrade", "checksum"]).2.1
      ["checksum", "upgrade"] (fun x => by simp; tauto)

/-! ## Claim C2: re-adding a key renders in place -/

/-- The state of `__added` / `__java_additional` after the externally-routed
adds described by `es` (distinct keys, all accepted, none Python-side). -/
structure AddedInv (s : CmdArgs) (es : List (String × PyVal)) : Prop where
  added_eq : s.added = offsetsFrom 0 es
  java_eq : s.java_additional = joinRend es
  nodupKeys : (es.map Prod.fst).Nodup
  keysOk : ∀ e ∈ es, e.1 ∈ s.accepts ∧ e.1 ∉ py_keys

theorem joinRend_append (a b : List (String × PyVal)) :
    joinRend (a ++ b) = joinRend a ++ joinRend b := by
  simp [joinRend]

theorem joinRend_cons (e : String × PyVal) (es : List (String × PyVal)) :
    joinRend (e :: es) = build_arg_list e.1 e.2 ++ joinRend es := by
  simp [joinRend]

theorem alookup_offsetsFrom (pre : List (String × PyVal)) (k : String) (v : PyVal)
    (post : List (String × PyVal)) (n : Nat) (hk : k ∉ pre.map Prod.fst) :
    alookup (offsetsFrom n (pre ++ (k, v) :: post)) k
      = Option.some (n + (joinRend pre).length) := by
  induction pre generalizing n with
  | nil => simp [offsetsFrom, alookup, joinRend]
  | cons e pre ih =>
    have h1 : ¬ e.1 = k := by
      intro hk1
      exact hk (by rw [List.map_cons, hk1]; exact List.mem_cons_self _ _)
    have h2 : k ∉ pre.map Prod.fst := by
      intro hm
      exact hk (by rw [List.map_cons]; exact List.mem_cons_of_mem _ hm)
    show alookup ((e.1, n) :: offsetsFrom (n + (build_arg_list e.1 e.2).length)
        (pre ++ (k, v) :: post)) k = _
    rw [show alookup ((e.1, n) :: offsetsFrom (n + (build_arg_list e.1 e.2).length)
        (pre ++ (k, v) :: post)) k
      = alookup (offsetsFrom (n + (build_arg_list e.1 e.2).length) (pre ++ (k, v) :: post)) k
      from by simp [alookup, h1]]
    rw [ih _ h2, joinRend_cons]
    simp [Nat.add_assoc]

theorem offsetsFrom_replace (pre post : List (String × PyVal)) (k : String) (v₀ v₁ : PyVal)
    (n : Nat) (hlen : (build_arg_list k v₁).length = (build_arg_list k v₀).length) :
    offsetsFrom n (pre ++ (k, v₁) :: post) = offsetsFrom n (pre ++ (k, v₀) :: post) := by
  induction pre generalizing n with
  | nil => simp [offsetsFrom, hlen]
  | cons e pre ih => simp [offsetsFrom, ih]

theorem reset_slice_append (a old b new : List String)
    (hlen : new.length = old.length) :
    reset_slice (a ++ old ++ b) a.length new = a ++ new ++ b := by
  unfold reset_slice
  have htake : (a ++ old ++ b).take a.length = a := by
    rw [List.append_assoc, List.take_left]
  have hdrop : (a ++ old ++ b).drop (a.length + new.length) = b := by
    have : (a ++ old).length = a.length + new.length := by
      simp [List.length_append, hlen]
    rw [← this, List.drop_left]
  rw [htake, hdrop]

/-- **C2 (amended)**: re-adding an already-added key, when the renditions of
the old and of the new value have the same token count (in particular
whenever both values are plain strings), rewrites the slot in place: the
key's rendition keeps the exact position it first had, holds the latest
value only, appears once, and the renditions of all other keys are
untouched.  (Without the equal-token-count proviso the slice assignment of
`reset_arg` corrupts the sequence — see the counterexample.) -/
theorem readd_key_same_length_in_place (s : CmdArgs)
    (pre post : List (String × PyVal)) (k : String) (v₀ v₁ : PyVal)
    (hinv : AddedInv s (pre ++ (k, v₀) :: post))
    (hlen : (build_arg_list k v₁).length = (build_arg_list k v₀).length) :
    ∃ s', s.add k v₁ = Except.ok s'
      ∧ s.java_additional = joinRend pre ++ build_arg_list k v₀ ++ joinRend post
      ∧ s'.java_additional = joinRend pre ++ build_arg_list k v₁ ++ joinRend post
      ∧ s'.added = s.added
      ∧ AddedInv s' (pre ++ (k, v₁) :: post) := by
  have hkmem : (k, v₀) ∈ pre ++ (k, v₀) :: post :=
    List.mem_append_right _ (List.mem_cons_self _ _)
  obtain ⟨hacc, hnpy⟩ := hinv.keysOk _ hkmem
  have hknotpre : k ∉ pre.map Prod.fst := by
    intro hmem
    have hnd := hinv.nodupKeys
    rw [List.map_append, List.map_cons] at hnd
    have hdis := (List.nodup_append.mp hnd).2.2
    exact hdis hmem (List.mem_cons_self _ _)
  have hidx : alookup s.added k = Option.some (joinRend pre).length := by
    rw [hinv.added_eq]
    simpa using alookup_offsetsFrom pre k v₀ post 0 hknotpre
  have hjava : s.java_additional = joinRend pre ++ build_arg_list k v₀ ++ joinRend post := by
    rw [hinv.java_eq, joinRend_append, joinRend_cons, List.append_assoc]
  have hadd : s.add k v₁ = Except.ok
      { s with java_additional :=
          reset_slice s.java_additional (joinRend pre).length (build_arg_list k v₁) } := by
    simp only [CmdArgs.add, hidx]
    rw [if_neg hnpy, if_pos hacc]
  have hslice : reset_slice s.java_additional (joinRend pre).length (build_arg_list k v₁)
      = joinRend pre ++ build_arg_list k v₁ ++ joinRend post := by
    rw [hjava]
    exact reset_slice_append _ _ _ _ hlen
  have hjoin₁ : joinRend (pre ++ (k, v₁) :: post)
      = joinRend pre ++ build_arg_list k v₁ ++ joinRend post := by
    rw [joinRend_append, joinRend_cons, List.append_assoc]
  refine ⟨_, hadd, hjava, hslice, rfl, ?_, hslice.trans hjoin₁.symm, ?_, ?_⟩
  · show s.added = offsetsFrom 0 (pre ++ (k, v₁) :: post)
    rw [hinv.added_eq, offsetsFrom_replace _ _ _ _ _ _ hlen]
  · show ((pre ++ (k, v₁) :: post).map Prod.fst).Nodup
    have hmapeq : (pre ++ (k, v₁) :: post).map Prod.fst
        = (pre ++ (k, v₀) :: post).map Prod.fst := by
      simp
    rw [hmapeq]
    exact hinv.nodupKeys
  · intro e he
    rcases List.mem_append.mp he with hpre | hrest
    · exact hinv.keysOk e (List.mem_append_left _ hpre)
    · rcases List.mem_cons.mp hrest with heq | hpost
      · rw [heq]
        exact ⟨hacc, hnpy⟩
      · exact hinv.keysOk e (List.mem_append_right _ (List.mem_cons_of_mem _ hpost))

/-- **C2 counterexample**: the claim as stated (for *every* pair of values)
is false.  Adding `d` with the integer `2` (rendition `["-d"]`, one token),
then `T` with `"Screen:1"`, then re-adding `d` with the string `"5"`
(rendition `["-d", "5"]`, two tokens) makes `reset_arg`'s slice assignment
overwrite the first token of `T`'s rendition: `"-T"` disappears, so the
other key's rendition is not preserved.  Conversely re-adding `T` (first
added with `"Screen:1"`, two tokens) with the integer `2` (one token) leaves
the stray token `"Screen:1"` behind, so the key's rendered text does not
equal the rendition of the latest value only. -/
theorem readd_key_counterexample :
    (∃ s₁ s₂ s₃,
      exCmdArgsDT.add "d" (PyVal.vint 2) = Except.ok s₁
      ∧ s₁.add "T" (PyVal.vstr "Screen:1") = Except.ok s₂
      ∧ s₂.java_additional = ["-d", "-T", "Screen:1"]
      ∧ s₂.add "d" (PyVal.vstr "5") = Except.ok s₃
      ∧ s₃.java_additional = ["-d", "5", "Screen:1"]
      ∧ "-T" ∉ s₃.java_additional)
    ∧ (∃ t₁ t₂,
      exCmdArgsDT.add "T" (PyVal.vstr "Screen:1") = Except.ok t₁
      ∧ t₁.add "T" (PyVal.vint 2) = Except.ok t₂
      ∧ build_arg_list "T" (PyVal.vint 2) = ["-T"]
      ∧ t₂.java_additional = ["-T", "Screen:1"]) := by
  refine ⟨⟨_, _, _, rfl, rfl, rfl, rfl, rfl, by decide⟩, ⟨_, _, rfl, rfl, rfl, rfl⟩⟩

/-- Witness for the amended C2 at a concrete state holding `T` then `d`. -/
theorem readd_key_same_length_in_place_witness :
    ∃ s', ({ exCmdArgsDT with
        added := [("T", 0), ("d", 2)],
        java_additional := ["-T", "Screen:1", "-d", "2"] } : CmdArgs).add "d" (PyVal.vstr "5")
      = Except.ok s'
      ∧ s'.java_additional = ["-T", "Screen:1", "-d", "5"]
      ∧ s'.added = [("T", 0), ("d", 2)] := by
  have hinv : AddedInv
      { exCmdArgsDT with
        added := [("T", 0), ("d", 2)],
        java_additional := ["-T", "Screen:1", "-d", "2"] }
      ([("T", PyVal.vstr "Screen:1")] ++ ("d", PyVal.vstr "2") :: []) := by
    refine ⟨rfl, rfl, by decide, ?_⟩
    intro e he
    rcases List.mem_cons.mp he with h | he'
    · rw [h]
      exact ⟨by decide, by decide⟩
    · rcases List.mem_cons.mp he' with h | h
      · rw [h]
        exact ⟨by decide, by decide⟩
      · cases h
  obtain ⟨s', hok, _, hjava, hadded, _⟩ :=
    readd_key_same_length_in_place _ [("T", PyVal.vstr "Screen:1")] [] "d"
      (PyVal.vstr "2") (PyVal.vstr "5") hinv rfl
  exact ⟨s', hok, hjava.trans (by decide), hadded.trans rfl⟩

/-! ## Claim C6: row-source parsing strategy -/

/-- **C6 (amended)**: the parsing strategy depends on the *truthiness* of the
declared columns (so a declared empty column list behaves like no columns)
and on the file suffix.  With falsy columns every line is stripped of
leading *and* trailing whitespace and becomes a one-element row holding the
literal stripped line; with truthy columns and a suffix other than `.tsv` /
`.csv`, every line is stripped and shell-word-split, and the resulting token
list is wrapped as the single element of a one-element row (`yield [line]`);
`.tsv` parses tab-delimited and `.csv` comma-delimited, one field per
element. -/
theorem row_source_parsing (cols : PyVal) (pathName : String) (lines : List String) :
    (cols.truthy = false →
      chooseStrategy cols pathName = Strategy.text
      ∧ rowsFor (chooseStrategy cols pathName) lines
          = lines.map (fun line => [PyVal.vstr (pyStrip line)]))
    ∧ (cols.truthy = true → strEndsWith pathName ".tsv" = false →
        strEndsWith pathName ".csv" = false →
      chooseStrategy cols pathName = Strategy.shlexed
      ∧ rowsFor (chooseStrategy cols pathName) lines
          = lines.map (fun line =>
              [PyVal.vlist ((shlexSplit (pyStrip line)).map PyVal.vstr)]))
    ∧ (cols.truthy = true → strEndsWith pathName ".tsv" = true →
      chooseStrategy cols pathName = Strategy.tsv
      ∧ rowsFor (chooseStrategy cols pathName) lines
          = lines.map (fun line => (csvSplit '\t' line).map PyVal.vstr))
    ∧ (cols.truthy = true → strEndsWith pathName ".tsv" = false →
        strEndsWith pathName ".csv" = true →
      chooseStrategy cols pathName = Strategy.csv
      ∧ rowsFor (chooseStrategy cols pathName) lines
          = lines.map (fun line => (csvSplit ',' line).map PyVal.vstr)) := by
  refine ⟨fun h => ?_, fun h ht hc => ?_, fun h ht => ?_, fun h ht hc => ?_⟩
  · have hs : chooseStrategy cols pathName = Strategy.text := by
      simp [chooseStrategy, h]
    exact ⟨hs, by rw [hs]; rfl⟩
  · have hs : chooseStrategy cols pathName = Strategy.shlexed := by
      simp [chooseStrategy, h, ht, hc]
    exact ⟨hs, by rw [hs]; rfl⟩
  · have hs : chooseStrategy cols pathName = Strategy.tsv := by
      simp [chooseStrategy, h, ht]
    exact ⟨hs, by rw [hs]; rfl⟩
  · have hs : chooseStrategy cols pathName = Strategy.csv := by
      simp [chooseStrategy, h, ht, hc]
    exact ⟨hs, by rw [hs]; rfl⟩

/-- Witness for C6 (amended) at concrete column sets, suffixes and lines. -/
theorem row_source_parsing_witness :
    (chooseStrategy PyVal.vnone "files.txt" = Strategy.text
      ∧ rowsFor (chooseStrategy PyVal.vnone "files.txt") [" a.tif \x0a"]
          = [[PyVal.vstr "a.tif"]])
    ∧ (chooseStrategy (PyVal.vlist [PyVal.vstr "path", PyVal.vstr "name"]) "rows.txt"
        = Strategy.shlexed
      ∧ rowsFor (chooseStrategy (PyVal.vlist [PyVal.vstr "path", PyVal.vstr "name"]) "rows.txt")
          ["a.tif Sample1"]
          = [[PyVal.vlist [PyVal.vstr "a.tif", PyVal.vstr "Sample1"]]])
    ∧ (chooseStrategy (PyVal.vlist [PyVal.vstr "path", PyVal.vstr "name"]) "rows.csv"
        = Strategy.csv
      ∧ rowsFor (chooseStrategy (PyVal.vlist [PyVal.vstr "path", PyVal.vstr "name"]) "rows.csv")
          ["img.tif,Sample1"]
          = [[PyVal.vstr "img.tif", PyVal.vstr "Sample1"]]) := by
  refine ⟨?_, ?_, ?_⟩
  · have h := (row_source_parsing PyVal.vnone "files.txt" [" a.tif \x0a"]).1 rfl
    exact ⟨h.1, h.2.trans rfl⟩
  · have h := (row_source_parsing (PyVal.vlist [PyVal.vstr "path", PyVal.vstr "name"])
      "rows.txt" ["a.tif Sample1"]).2.1 rfl rfl rfl
    exact ⟨h.1, h.2.trans rfl⟩
  · have h := (row_source_parsing (PyVal.vlist [PyVal.vstr "path", PyVal.vstr "name"])
      "rows.csv" ["img.tif,Sample1"]).2.2.2 rfl rfl rfl
    exact ⟨h.1, h.2.trans rfl⟩

/-- **C6 counterexample**: the claim as stated fails on three counts.
(i) `parse_text` uses `line.strip()`, which removes *leading* whitespace
too, so the row element is not the right-trimmed line.  (ii) With columns
declared and a non-`.tsv`/`.csv` suffix, a line is not split "into a row of
tokens": the token list is wrapped as the single element of the row
(`yield [line]` after `line = shlex.split(line)`).  (iii) With a declared
but *empty* column list the code picks the text strategy, not
shell-word-splitting. -/
theorem row_source_parsing_counterexample :
    (parseTextLines ["  a.tif "] = [[PyVal.vstr "a.tif"]]
      ∧ pyRstrip "  a.tif " = "  a.tif"
      ∧ parseTextLines ["  a.tif "] ≠ [[PyVal.vstr "  a.tif"]])
    ∧ (chooseStrategy (PyVal.vlist [PyVal.vstr "path", PyVal.vstr "name"]) "rows.txt"
        = Strategy.shlexed
      ∧ parseShlexLines ["a.tif Sample1"]
          = [[PyVal.vlist [PyVal.vstr "a.tif", PyVal.vstr "Sample1"]]]
      ∧ parseShlexLines ["a.tif Sample1"] ≠ [[PyVal.vstr "a.tif", PyVal.vstr "Sample1"]])
    ∧ chooseStrategy (PyVal.vlist []) "rows.txt" = Strategy.text := by
  refine ⟨⟨rfl, rfl, ?_⟩, ⟨rfl, rfl, ?_⟩, rfl⟩
  · intro h
    rw [show parseTextLines ["  a.tif "] = [[PyVal.vstr "a.tif"]] from rfl] at h
    injection h with h1 _
    injection h1 with h2 _
    injection h2 with h3
    exact absurd h3 (by decide)
  · intro h
    rw [show parseShlexLines ["a.tif Sample1"]
      = [[PyVal.vlist [PyVal.vstr "a.tif", PyVal.vstr "Sample1"]]] from rfl] at h
    injection h with h1 _
    injection h1 with h2 h4
    cases h2

/-! ## Claim C8: orchestrator keys become attributes, never external flags -/

theorem alookup_append {α : Type} (l₁ l₂ : List (String × α)) (k : String) :
    alookup (l₁ ++ l₂) k =
      match alookup l₁ k with
      | Option.some v => Option.some v
      | Option.none => alookup l₂ k := by
  induction l₁ with
  | nil => rfl
  | cons e es ih =>
    by_cases h : e.1 = k
    · simp [alookup, h]
    · simp [alookup, h, ih]

theorem getattr_setattr (s : CmdArgs) (k : String) (v : PyVal) (k' : String) :
    (s.setattr k v).getattr k' = if k' = k then Option.some v else s.getattr k' := by
  unfold CmdArgs.setattr CmdArgs.getattr
  by_cases h1 : k = "path" <;> by_cases h2 : k' = "path" <;>
    by_cases h3 : k = "JAVA_DEBUG" <;> by_cases h4 : k' = "JAVA_DEBUG" <;>
    by_cases h5 : k = "dry_run" <;> by_cases h6 : k' = "dry_run" <;>
    simp_all [alookup_aset, eq_comm]

/-- An `add` of an orchestrator key always succeeds and, attribute-wise, is
exactly the `setattr`. -/
theorem add_py_getattr (s : CmdArgs) (k : String) (v : PyVal) (hk : k ∈ py_keys) :
    ∃ s', s.add k v = Except.ok s' ∧ ∀ k', s'.getattr k' = (s.setattr k v).getattr k' := by
  unfold CmdArgs.add
  rw [if_pos hk]
  cases alookup s.added k with
  | none => exact ⟨_, rfl, fun k' => rfl⟩
  | some idx => exact ⟨_, rfl, fun k' => rfl⟩

/-- An `add` of a non-orchestrator key leaves every attribute unchanged. -/
theorem add_java_getattr (s : CmdArgs) (k : String) (v : PyVal) (s' : CmdArgs)
    (hk : k ∉ py_keys) (h : s.add k v = Except.ok s') :
    ∀ k', s'.getattr k' = s.getattr k' := by
  unfold CmdArgs.add at h
  rw [if_neg hk] at h
  by_cases hacc : k ∈ s.accepts
  · rw [if_pos hacc] at h
    split at h
    · injection h with h
      rw [← h]
      intro k'
      rfl
    · injection h with h
      rw [← h]
      intro k'
      rfl
  · rw [if_neg hacc] at h
    cases h

/-- `setattr` touches none of the rendered-argument state. -/
theorem setattr_frame (s : CmdArgs) (k : String) (v : PyVal) :
    (s.setattr k v).accepts = s.accepts ∧ (s.setattr k v).added = s.added
    ∧ (s.setattr k v).java_initial = s.java_initial
    ∧ (s.setattr k v).java_additional = s.java_additional
    ∧ (s.setattr k v).py_additional = s.py_additional := by
  unfold CmdArgs.setattr
  split_ifs <;> exact ⟨rfl, rfl, rfl, rfl, rfl⟩

/-- One `add` of a Python-side key leaves the external flag state alone. -/
theorem add_py_javaEq (s t : CmdArgs) (k : String) (v : PyVal) (s' : CmdArgs)
    (hk : k ∈ py_keys) (hR : JavaEq s t) (h : s.add k v = Except.ok s') :
    JavaEq s' t := by
  obtain ⟨hacc, hji, hja, hlk⟩ := hR
  obtain ⟨hfa, hfad, hfji, hfja, _⟩ := setattr_frame s k v
  unfold CmdArgs.add at h
  rw [if_pos hk] at h
  split at h <;> injection h with h <;> rw [← h]
  · refine ⟨hfa.trans hacc, hfji.trans hji, hfja.trans hja, fun k' hk' => ?_⟩
    show alookup ((s.setattr k v).added ++ [(k, (s.setattr k v).py_additional.length)]) k' = _
    rw [hfad, alookup_append, hlk k' hk']
    have hne : ¬ k = k' := fun he => hk' (he ▸ hk)
    cases halo : alookup t.added k' with
    | none => simp [alookup, hne]
    | some v' => rfl
  · refine ⟨hfa.trans hacc, hfji.trans hji, hfja.trans hja, fun k' hk' => ?_⟩
    show alookup (s.setattr k v).added k' = _
    rw [hfad]
    exact hlk k' hk'

/-- One `add` of an externally-routed key acts identically on states that
agree on the external flag state. -/
theorem add_java_sim (s t : CmdArgs) (k : String) (v : PyVal) (s' : CmdArgs)
    (hk : k ∉ py_keys) (hR : JavaEq s t) (h : s.add k v = Except.ok s') :
    ∃ t', t.add k v = Except.ok t' ∧ JavaEq s' t' := by
  obtain ⟨hacc, hji, hja, hlk⟩ := hR
  unfold CmdArgs.add at h ⊢
  rw [if_neg hk] at h ⊢
  by_cases haccs : k ∈ s.accepts
  · rw [if_pos haccs] at h
    rw [if_pos (hacc ▸ haccs)]
    rw [← hlk k hk]
    cases halo : alookup s.added k with
    | none =>
      rw [halo] at h
      injection h with h
      refine ⟨_, rfl, ?_⟩
      rw [← h]
      refine ⟨hacc, hji, by rw [hja], fun k' hk' => ?_⟩
      show alookup (s.added ++ [(k, s.java_additional.length)]) k'
          = alookup (t.added ++ [(k, t.java_additional.length)]) k'
      rw [alookup_append, alookup_append, hlk k' hk', hja]
    | some idx =>
      rw [halo] at h
      injection h with h
      refine ⟨_, rfl, ?_⟩
      rw [← h]
      exact ⟨hacc, hji, by rw [hja], fun k' hk' => hlk k' hk'⟩
  · rw [if_neg haccs] at h
    cases h

/-- Removing the Python-side adds from a successful `add` sequence leaves a
successful sequence producing the same external flag state. -/
theorem runAdds_filterJava (ops : List (String × PyVal)) :
    ∀ s t s', JavaEq s t → runAdds s ops = Except.ok s' →
      ∃ t', runAdds t (filterJava ops) = Except.ok t' ∧ JavaEq s' t' := by
  induction ops with
  | nil =>
    intro s t s' hR h
    injection h with h
    exact ⟨t, rfl, h ▸ hR⟩
  | cons op ops ih =>
    intro s t s' hR h
    unfold runAdds at h
    by_cases hk : op.1 ∈ py_keys
    · have hfilter : filterJava (op :: ops) = filterJava ops := by
        simp [filterJava, List.filter_cons, List.elem_eq_mem, hk]
      cases hadd : s.add op.1 op.2 with
      | error e =>
        rw [hadd] at h
        cases h
      | ok s₁ =>
        rw [hadd] at h
        rw [hfilter]
        exact ih s₁ t s' (add_py_javaEq s t op.1 op.2 s₁ hk hR hadd) h
    · have hfilter : filterJava (op :: ops) = op :: filterJava ops := by
        simp [filterJava, List.filter_cons,
          List.elem_eq_mem, hk]
      cases hadd : s.add op.1 op.2 with
      | error e =>
        rw [hadd] at h
        cases h
      | ok s₁ =>
        rw [hadd] at h
        obtain ⟨t₁, ht₁, hR₁⟩ := add_java_sim s t op.1 op.2 s₁ hk hR hadd
        obtain ⟨t', ht', hR'⟩ := ih s₁ t₁ s' hR₁ h
        refine ⟨t', ?_, hR'⟩
        rw [hfilter]
        unfold runAdds
        rw [ht₁]
        exact ht'

/-- The attribute a sequence of adds leaves on the instance is the value of
its last Python-side add. -/
theorem runAdds_getattr (ops : List (String × PyVal)) :
    ∀ s s', runAdds s ops = Except.ok s' → ∀ k, k ∈ py_keys →
      s'.getattr k =
        match lastVal k ops with
        | Option.some v => Option.some v
        | Option.none => s.getattr k := by
  induction ops with
  | nil =>
    intro s s' h k _
    injection h with h
    rw [← h]
    rfl
  | cons op ops ih =>
    intro s s' h k hk
    unfold runAdds at h
    cases hadd : s.add op.1 op.2 with
    | error e =>
      rw [hadd] at h
      cases h
    | ok s₁ =>
      rw [hadd] at h
      have hrec := ih s₁ s' h k hk
      show _ = (match (match lastVal k ops with
        | Option.some v => Option.some v
        | Option.none => if op.1 = k then Option.some op.2 else Option.none) with
        | Option.some v => Option.some v
        | Option.none => s.getattr k)
      cases hl : lastVal k ops with
      | some v =>
        rw [hrec, hl]
      | none =>
        rw [hrec, hl]
        by_cases hop : op.1 ∈ py_keys
        · obtain ⟨s₁', hok, hgap⟩ := add_py_getattr s op.1 op.2 hop
          rw [hadd] at hok
          injection hok with hok
          rw [← hok] at hgap
          rw [hgap k, getattr_setattr]
          by_cases he : op.1 = k
          · simp [he]
          · have he' : ¬ k = op.1 := fun hh => he hh.symm
            simp [he, he']
        · have he : ¬ op.1 = k := fun hh => hop (hh ▸ hk)
          rw [add_java_getattr s op.1 op.2 s₁ hop hadd k]
          simp [he]

/-- `getattr` depends only on the attribute-carrying fields. -/
theorem getattr_fields (r₁ r₂ : CmdArgs) (hat : r₁.attrs = r₂.attrs)
    (hp : r₁.path = r₂.path) (hjd : r₁.JAVA_DEBUG = r₂.JAVA_DEBUG)
    (hdr : r₁.dry_run = r₂.dry_run) (k : String) : r₁.getattr k = r₂.getattr k := by
  unfold CmdArgs.getattr
  rw [hat, hp, hjd, hdr]

/-- What one step of the `vars(args)` loop does to `__java_initial`. -/
theorem initStep_java_initial (base : CmdArgs) (a : String × PyVal) :
    (initStep base a).java_initial
      = if a.1 ∈ py_keys then base.java_initial
        else if a.2.truthy then base.java_initial ++ build_arg_list a.1 a.2
        else base.java_initial := by
  by_cases hap : a.1 ∈ py_keys
  · rw [if_pos hap]
    show (initStep base a).java_initial = base.java_initial
    unfold initStep
    rw [if_pos hap]
    exact (setattr_frame _ a.1 a.2).2.2.1
  · rw [if_neg hap]
    unfold initStep
    rw [if_neg hap]
    by_cases ht : a.2.truthy
    · rw [if_pos ht, if_pos ht]
    · rw [if_neg ht, if_neg ht]

/-- What one step of the `vars(args)` loop does to the attributes. -/
theorem initStep_getattr (base : CmdArgs) (a : String × PyVal) (k : String) :
    (initStep base a).getattr k
      = if a.1 ∈ py_keys ∧ a.1 = k then Option.some a.2 else base.getattr k := by
  by_cases hap : a.1 ∈ py_keys
  · have h1 : (initStep base a).getattr k
        = (({ base with accepts := base.accepts ++ [a.1] } : CmdArgs).setattr a.1 a.2).getattr k := by
      apply getattr_fields
      all_goals
        unfold initStep
        rw [if_pos hap]
    have h2 : ({ base with accepts := base.accepts ++ [a.1] } : CmdArgs).getattr k
        = base.getattr k := getattr_fields _ _ rfl rfl rfl rfl k
    rw [h1, getattr_setattr, h2]
    by_cases he : a.1 = k
    · rw [if_pos he.symm, if_pos ⟨hap, he⟩]
    · rw [if_neg (fun hh => he hh.symm), if_neg (fun hc => he hc.2)]
  · have h1 : (initStep base a).getattr k = base.getattr k := by
      apply getattr_fields
      all_goals
        unfold initStep
        rw [if_neg hap]
        by_cases ht : a.2.truthy
        · rw [if_pos ht]
        · rw [if_neg ht]
    rw [h1]
    simp [hap]

/-- The `__init__` loop renders exactly the truthy non-Python options into
`__java_initial`. -/
theorem init_java_initial (args : List (String × PyVal)) :
    ∀ base : CmdArgs, (args.foldl initStep base).java_initial
      = base.java_initial
        ++ joinRend (args.filter (fun e => !py_keys.contains e.1 && e.2.truthy)) := by
  induction args with
  | nil =>
    intro base
    simp [joinRend]
  | cons a args ih =>
    intro base
    show (args.foldl initStep (initStep base a)).java_initial = _
    rw [ih (initStep base a), initStep_java_initial, List.filter_cons]
    by_cases hk : a.1 ∈ py_keys
    · have hc : (py_keys.contains a.1) = true := List.elem_iff.mpr hk
      have hcond : (!py_keys.contains a.1 && a.2.truthy) = false := by
        rw [hc]
        rfl
      rw [if_pos hk, hcond, if_neg (by simp)]
    · have hc : (py_keys.contains a.1) = false :=
        Bool.eq_false_iff.mpr (fun hm => hk (List.elem_iff.mp hm))
      rw [if_neg hk]
      by_cases ht : a.2.truthy
      · have hcond : (!py_keys.contains a.1 && a.2.truthy) = true := by
          rw [hc, ht]
          rfl
        rw [if_pos ht, hcond, if_pos rfl, joinRend_cons, List.append_assoc]
      · have ht' : a.2.truthy = false := by
          revert ht
          cases a.2.truthy <;> simp
        have hcond : (!py_keys.contains a.1 && a.2.truthy) = false := by
          rw [hc, ht']
          rfl
        rw [if_neg ht, hcond, if_neg (by simp)]

/-- The `__init__` loop stores Python-side options as attributes, later
entries overwriting earlier ones. -/
theorem init_getattr (args : List (String × PyVal)) :
    ∀ base : CmdArgs, ∀ k, k ∈ py_keys →
      (args.foldl initStep base).getattr k =
        match lastVal k args with
        | Option.some v => Option.some v
        | Option.none => base.getattr k := by
  induction args with
  | nil =>
    intro base k _
    rfl
  | cons a args ih =>
    intro base k hk
    show (args.foldl initStep (initStep base a)).getattr k = _
    rw [ih (initStep base a) k hk]
    show (match lastVal k args with
        | Option.some v => Option.some v
        | Option.none => (initStep base a).getattr k)
        = (match (match lastVal k args with
            | Option.some v => Option.some v
            | Option.none => if a.1 = k then Option.some a.2 else Option.none) with
          | Option.some v => Option.some v
          | Option.none => base.getattr k)
    cases hl : lastVal k args with
    | some v => rfl
    | none =>
      rw [initStep_getattr]
      by_cases he : a.1 = k
      · have hap : a.1 ∈ py_keys := he ▸ hk
        rw [if_pos ⟨hap, he⟩, if_pos he]
      · rw [if_neg (fun hc => he hc.2), if_neg he]

/-- **C8**: every orchestrator (Python-side) key set at construction or via
`add` is stored as a readable live attribute on the instance, and its
rendition never reaches the external flag lists: `__java_initial` after
construction is exactly the login/skip tokens followed by the renditions of
the truthy non-Python options, and after any successful sequence of adds
the external flag lists equal those of the same run with every Python-side
add removed.  (The full external vector is those flag lists followed by the
path-list values and the optional `--debug` flag, see `CmdArgs.java_args`.) -/
theorem orchestrator_keys_live_attrs_never_rendered
    (login : LoginInfo) (args ops : List (String × PyVal)) (s' : CmdArgs)
    (hrun : runAdds (cmdArgsInit login args) ops = Except.ok s') :
    (cmdArgsInit login args).java_initial
      = (initBase login args).java_initial
        ++ joinRend (args.filter (fun e => !py_keys.contains e.1 && e.2.truthy))
    ∧ (∀ k, k ∈ py_keys → ∀ v, lastVal k args = Option.some v →
        (cmdArgsInit login args).getattr k = Option.some v)
    ∧ (∃ t', runAdds (cmdArgsInit login args) (filterJava ops) = Except.ok t'
        ∧ s'.java_initial = t'.java_initial
        ∧ s'.java_additional = t'.java_additional)
    ∧ (∀ k, k ∈ py_keys → ∀ v, lastVal k ops = Option.some v →
        s'.getattr k = Option.some v) := by
  refine ⟨init_java_initial args (initBase login args), ?_, ?_, ?_⟩
  · intro k hk v hv
    rw [show (cmdArgsInit login args).getattr k
        = (args.foldl initStep (initBase login args)).getattr k from rfl,
      init_getattr args (initBase login args) k hk, hv]
  · obtain ⟨t', ht', hR⟩ := runAdds_filterJava ops _ _ s'
      ⟨rfl, rfl, rfl, fun _ _ => rfl⟩ hrun
    exact ⟨t', ht', hR.2.1, hR.2.2.1⟩
  · intro k hk v hv
    rw [runAdds_getattr ops _ s' hrun k hk, hv]

/-- Witness for C8 at a concrete construction and add sequence. -/
theorem orchestrator_keys_live_attrs_never_rendered_witness :
    ∃ s' t', runAdds (cmdArgsInit exLogin exArgs) exOps = Except.ok s'
      ∧ (cmdArgsInit exLogin exArgs).java_initial
          = ["-s", "h", "-p", "4064", "-k", "sess", "--name=img1"]
      ∧ (cmdArgsInit exLogin exArgs).getattr "bulk" = Option.some (PyVal.vstr "b.yml")
      ∧ s'.getattr "file" = Option.some (PyVal.vstr "out.log")
      ∧ runAdds (cmdArgsInit exLogin exArgs) (filterJava exOps) = Except.ok t'
      ∧ s'.java_additional = t'.java_additional
      ∧ s'.java_additional = ["-d", "2"] := by
  obtain ⟨hinit, hattr, ⟨t', ht', _, hja⟩, hattr2⟩ :=
    orchestrator_keys_live_attrs_never_rendered exLogin exArgs exOps _ rfl
  exact ⟨_, t', rfl, hinit.trans (by decide),
    hattr "bulk" (by decide) _ rfl, hattr2 "file" (by decide) _ rfl,
    ht', hja, rfl⟩

/-! ## The bulk row loop: continue-on-error (C4, C10) and dry run (C5) -/

theorem set_path_frame (s : CmdArgs) (p : PyVal) (s' : CmdArgs)
    (h : s.set_path p = Except.ok s') :
    s'.dry_run = s.dry_run ∧ s'.argsFile = s.argsFile ∧ s'.argsErrs = s.argsErrs
    ∧ s'.argsLogPfx = s.argsLogPfx ∧ s'.py_additional = s.py_additional
    ∧ s'.java_additional = s.java_additional := by
  unfold CmdArgs.set_path at h
  split at h
  · injection h with h
    rw [← h]
    exact ⟨rfl, rfl, rfl, rfl, rfl, rfl⟩
  · cases h

/-- With every `open` succeeding and no handle held, `do_import` invokes the
external process once, records its status in `ctx.rv`, and leaves no handle
open. -/
theorem do_import_ok (env : Env) (cargs : CmdArgs) (w : World)
    (hopen : ∀ f, env.openOk f = true) (hof : w.openFiles = []) :
    do_import env cargs w = Except.ok
      { w with openFiles := [], nInvoked := w.nInvoked + 1,
               rv := env.statuses w.nInvoked } := by
  unfold do_import openLog
  by_cases hf : cargs.argsFile.truthy <;> by_cases he : cargs.argsErrs.truthy <;>
    simp [hf, he, hopen, closeH, hof, List.erase_cons_head]

/-- One non-dry row without columns: the row becomes the path list, the
external process runs once, and the failure bookkeeping of lines 676-688
executes. -/
theorem rowLoop_cons_invoke (env : Env) (cont : Bool) (cols : PyVal)
    (parts : List PyVal) (rest : List (List PyVal)) (cargs : CmdArgs)
    (incr failed total : Nat) (w : World)
    (hcols : cols.truthy = false) (hdry : cargs.dry_run.truthy = false)
    (hopen : ∀ f, env.openOk f = true) (hof : w.openFiles = []) :
    rowLoop env cont cols (parts :: rest) cargs incr failed total w
      = (let st := env.statuses w.nInvoked
         let w₁ : World := { w with openFiles := [], nInvoked := w.nInvoked + 1, rv := st }
         if st ≠ 0 ∧ ¬ cont then Except.error (PyErr.die 106, w₁)
         else
           let failed' := if st ≠ 0 then failed + 1 else failed
           let total' := if st ≠ 0 then total + st else total
           let w₂ : World := { w₁ with
             errLines := w₁.errLines ++ (if st ≠ 0 ∧ cont then [contMsg st] else []),
             rv := total' }
           let w₃ : World := if failed' ≠ 0
             then { w₂ with errLines := w₂.errLines ++ [failMsg failed'] } else w₂
           rowLoop env cont cols rest { cargs with path := PyVal.vlist parts }
             (incr + 1) failed' total' w₃) := by
  have happly : applyRow cargs cols parts
      = Except.ok { cargs with path := PyVal.vlist parts } := by
    unfold applyRow CmdArgs.set_path
    rw [if_pos (by simp [hcols])]
  have hdry₁ : ({ cargs with path := PyVal.vlist parts } : CmdArgs).dry_run.truthy = false :=
    hdry
  show (match applyRow cargs cols parts with
    | Except.error e => Except.error (e, w)
    | Except.ok cargs =>
      match rowBody env cont cargs (incr + 1) failed total w with
      | Except.error e => Except.error e
      | Except.ok (failed, total, w) =>
          rowLoop env cont cols rest cargs (incr + 1) failed total w) = _
  rw [happly]
  show (match rowBody env cont { cargs with path := PyVal.vlist parts }
        (incr + 1) failed total w with
      | Except.error e => Except.error e
      | Except.ok (failed, total, w) =>
          rowLoop env cont cols rest { cargs with path := PyVal.vlist parts }
            (incr + 1) failed total w) = _
  unfold rowBody
  rw [if_neg (by simp [hdry₁]), do_import_ok env _ w hopen hof]
  by_cases hst : env.statuses w.nInvoked ≠ 0
  · cases cont
    · simp [hst]
    · by_cases hfz : failed + 1 ≠ 0
      · simp [hst, hfz, contMsg, failMsg]
      · omega
  · have hst0 : env.statuses w.nInvoked = 0 := by omega
    by_cases hfz : failed ≠ 0
    · simp [hst0, hfz, contMsg, failMsg]
    · have hf0 : failed = 0 := by omega
      simp [hst0, hf0]

/-- Specialisation of `rowLoop_cons_invoke`: failing row under `continue`. -/
theorem rowLoop_step_fail_cont (env : Env) (cols : PyVal)
    (parts : List PyVal) (rest : List (List PyVal)) (cargs : CmdArgs)
    (incr failed total : Nat) (w : World)
    (hcols : cols.truthy = false) (hdry : cargs.dry_run.truthy = false)
    (hopen : ∀ f, env.openOk f = true) (hof : w.openFiles = [])
    (hst : env.statuses w.nInvoked ≠ 0) :
    rowLoop env true cols (parts :: rest) cargs incr failed total w
      = rowLoop env true cols rest { cargs with path := PyVal.vlist parts } (incr + 1)
          (failed + 1) (total + env.statuses w.nInvoked)
          { w with openFiles := [], nInvoked := w.nInvoked + 1,
                   rv := total + env.statuses w.nInvoked,
                   errLines := w.errLines
                     ++ [contMsg (env.statuses w.nInvoked), failMsg (failed + 1)] } := by
  rw [rowLoop_cons_invoke env true cols parts rest cargs incr failed total w
    hcols hdry hopen hof]
  simp [hst]

/-- Specialisation of `rowLoop_cons_invoke`: succeeding row, either mode. -/
theorem rowLoop_step_ok (env : Env) (cont : Bool) (cols : PyVal)
    (parts : List PyVal) (rest : List (List PyVal)) (cargs : CmdArgs)
    (incr failed total : Nat) (w : World)
    (hcols : cols.truthy = false) (hdry : cargs.dry_run.truthy = false)
    (hopen : ∀ f, env.openOk f = true) (hof : w.openFiles = [])
    (hst : env.statuses w.nInvoked = 0) :
    rowLoop env cont cols (parts :: rest) cargs incr failed total w
      = rowLoop env cont cols rest { cargs with path := PyVal.vlist parts } (incr + 1)
          failed total
          { w with openFiles := [], nInvoked := w.nInvoked + 1, rv := total,
                   errLines := w.errLines
                     ++ (if failed ≠ 0 then [failMsg failed] else []) } := by
  rw [rowLoop_cons_invoke env cont cols parts rest cargs incr failed total w
    hcols hdry hopen hof]
  by_cases hfz : failed ≠ 0
  · simp [hst, hfz]
  · have hf0 : failed = 0 := by omega
    simp [hst, hf0]

/-- Specialisation of `rowLoop_cons_invoke`: failing row without
`continue` is immediately fatal (`ctx.die(106, ...)`). -/
theorem rowLoop_step_fail_nocont (env : Env) (cols : PyVal)
    (parts : List PyVal) (rest : List (List PyVal)) (cargs : CmdArgs)
    (incr failed total : Nat) (w : World)
    (hcols : cols.truthy = false) (hdry : cargs.dry_run.truthy = false)
    (hopen : ∀ f, env.openOk f = true) (hof : w.openFiles = [])
    (hst : env.statuses w.nInvoked ≠ 0) :
    rowLoop env false cols (parts :: rest) cargs incr failed total w
      = Except.error (PyErr.die 106,
          { w with openFiles := [], nInvoked := w.nInvoked + 1,
                   rv := env.statuses w.nInvoked }) := by
  rw [rowLoop_cons_invoke env false cols parts rest cargs incr failed total w
    hcols hdry hopen hof]
  simp [hst]

/-- With `cont = true` the loop processes every row, invoking the external
process once per row; afterwards `ctx.rv` is the accumulated status sum,
every failing row was logged, and the failure count was reported. -/
theorem rowLoop_cont (env : Env) (cols : PyVal) (hcols : cols.truthy = false)
    (hopen : ∀ f, env.openOk f = true) (rows : List (List PyVal)) :
    ∀ (cargs : CmdArgs) (incr failed total : Nat) (w : World),
      cargs.dry_run.truthy = false → w.openFiles = [] →
      ∃ cargs' w',
        rowLoop env true cols rows cargs incr failed total w = Except.ok (cargs', w')
        ∧ w'.nInvoked = w.nInvoked + rows.length
        ∧ w'.openFiles = []
        ∧ (rows ≠ [] → w'.rv = total + sumStatuses env w.nInvoked rows.length)
        ∧ (rows = [] → w' = w)
        ∧ (∀ x ∈ w.errLines, x ∈ w'.errLines)
        ∧ (∀ i, i < rows.length → env.statuses (w.nInvoked + i) ≠ 0 →
            contMsg (env.statuses (w.nInvoked + i)) ∈ w'.errLines)
        ∧ (rows ≠ [] → failed + countFails env w.nInvoked rows.length ≠ 0 →
            failMsg (failed + countFails env w.nInvoked rows.length) ∈ w'.errLines) := by
  induction rows with
  | nil =>
    intro cargs incr failed total w hdry hof
    exact ⟨cargs, w, rfl, by simp, hof, fun h => absurd rfl h, fun _ => rfl,
      fun x hx => hx, fun i hi => absurd hi (Nat.not_lt_zero i), fun h => absurd rfl h⟩
  | cons parts rest ih =>
    intro cargs incr failed total w hdry hof
    by_cases hst : env.statuses w.nInvoked = 0
    · rw [rowLoop_step_ok env true cols parts rest cargs incr failed total w
        hcols hdry hopen hof hst]
      obtain ⟨cargs', w', hrun, hninv, hof', hrv, hnil, hmono, hlog, hfail⟩ :=
        ih { cargs with path := PyVal.vlist parts } (incr + 1) failed total
          { w with openFiles := [], nInvoked := w.nInvoked + 1, rv := total,
                   errLines := w.errLines ++ (if failed ≠ 0 then [failMsg failed] else []) }
          hdry rfl
      have hnfix : w'.nInvoked = w.nInvoked + (parts :: rest).length := by
        rw [hninv]
        show w.nInvoked + 1 + rest.length = w.nInvoked + (rest.length + 1)
        omega
      refine ⟨cargs', w', hrun, hnfix, hof', fun _ => ?_,
        fun h => absurd h (List.cons_ne_nil _ _), ?_, ?_, fun _ hne => ?_⟩
      · by_cases hrest : rest = []
        · subst hrest
          rw [hnil rfl]
          show total = total + sumStatuses env w.nInvoked 1
          simp [sumStatuses, hst]
        · rw [hrv hrest]
          show total + sumStatuses env (w.nInvoked + 1) rest.length
            = total + sumStatuses env w.nInvoked (rest.length + 1)
          simp [sumStatuses, hst]
      · intro x hx
        exact hmono x (List.mem_append_left _ hx)
      · intro i hi hnz
        match i with
        | 0 =>
          rw [Nat.add_zero] at hnz
          exact absurd hst hnz
        | j + 1 =>
          have harith : w.nInvoked + (j + 1) = w.nInvoked + 1 + j := by omega
          rw [harith] at hnz ⊢
          exact hlog j (by simpa using hi) hnz
      · have hlen : (parts :: rest).length = rest.length + 1 := rfl
        have hcf : countFails env w.nInvoked (rest.length + 1)
            = countFails env (w.nInvoked + 1) rest.length := by
          simp [countFails, hst]
        rw [hlen, hcf] at hne ⊢
        by_cases hrest : rest = []
        · subst hrest
          rw [hnil rfl]
          simp only [countFails, Nat.add_zero] at hne ⊢
          show failMsg failed ∈ w.errLines ++ (if failed ≠ 0 then [failMsg failed] else [])
          rw [if_pos hne]
          exact List.mem_append_right _ (List.mem_cons_self _ _)
        · exact hfail hrest hne
    · rw [rowLoop_step_fail_cont env cols parts rest cargs incr failed total w
        hcols hdry hopen hof hst]
      obtain ⟨cargs', w', hrun, hninv, hof', hrv, hnil, hmono, hlog, hfail⟩ :=
        ih { cargs with path := PyVal.vlist parts } (incr + 1) (failed + 1)
          (total + env.statuses w.nInvoked)
          { w with openFiles := [], nInvoked := w.nInvoked + 1,
                   rv := total + env.statuses w.nInvoked,
                   errLines := w.errLines
                     ++ [contMsg (env.statuses w.nInvoked), failMsg (failed + 1)] }
          hdry rfl
      have hnfix : w'.nInvoked = w.nInvoked + (parts :: rest).length := by
        rw [hninv]
        show w.nInvoked + 1 + rest.length = w.nInvoked + (rest.length + 1)
        omega
      refine ⟨cargs', w', hrun, hnfix, hof', fun _ => ?_,
        fun h => absurd h (List.cons_ne_nil _ _), ?_, ?_, fun _ hne => ?_⟩
      · by_cases hrest : rest = []
        · subst hrest
          rw [hnil rfl]
          show total + env.statuses w.nInvoked = total + sumStatuses env w.nInvoked 1
          simp [sumStatuses]
        · rw [hrv hrest]
          show total + env.statuses w.nInvoked + sumStatuses env (w.nInvoked + 1) rest.length
            = total + sumStatuses env w.nInvoked (rest.length + 1)
          simp [sumStatuses]
          omega
      · intro x hx
        exact hmono x (List.mem_append_left _ hx)
      · intro i hi hnz
        match i with
        | 0 =>
          rw [Nat.add_zero] at hnz ⊢
          refine hmono _ (List.mem_append_right _ ?_)
          exact List.mem_cons_self _ _
        | j + 1 =>
          have harith : w.nInvoked + (j + 1) = w.nInvoked + 1 + j := by omega
          rw [harith] at hnz ⊢
          exact hlog j (by simpa using hi) hnz
      · have hcf : countFails env w.nInvoked (rest.length + 1)
            = 1 + countFails env (w.nInvoked + 1) rest.length := by
          simp [countFails, hst]
        show failMsg (failed + countFails env w.nInvoked (rest.length + 1)) ∈ w'.errLines
        rw [hcf]
        by_cases hrest : rest = []
        · subst hrest
          rw [hnil rfl]
          simp only [countFails]
          have harith : failed + (1 + 0) = failed + 1 := by omega
          rw [harith]
          refine List.mem_append_right _ ?_
          exact List.mem_cons_of_mem _ (List.mem_cons_self _ _)
        · have harith : failed + (1 + countFails env (w.nInvoked + 1) rest.length)
              = (failed + 1) + countFails env (w.nInvoked + 1) rest.length := by omega
          rw [harith]
          exact hfail hrest (by omega)

/-- Without `continue`, the first failing row kills the run with exit code
106; the rows after it are never processed. -/
theorem rowLoop_nocont (env : Env) (cols : PyVal) (hcols : cols.truthy = false)
    (hopen : ∀ f, env.openOk f = true) (rows : List (List PyVal)) :
    ∀ (cargs : CmdArgs) (incr failed total : Nat) (w : World) (j : Nat),
      cargs.dry_run.truthy = false → w.openFiles = [] →
      j < rows.length →
      (∀ i, i < j → env.statuses (w.nInvoked + i) = 0) →
      env.statuses (w.nInvoked + j) ≠ 0 →
      ∃ w', rowLoop env false cols rows cargs incr failed total w
          = Except.error (PyErr.die 106, w')
        ∧ w'.nInvoked = w.nInvoked + j + 1
        ∧ w'.rv = env.statuses (w.nInvoked + j) := by
  induction rows with
  | nil =>
    intro cargs incr failed total w j _ _ hj _ _
    exact absurd hj (Nat.not_lt_zero j)
  | cons parts rest ih =>
    intro cargs incr failed total w j hdry hof hj hzero hnz
    match j with
    | 0 =>
      rw [Nat.add_zero] at hnz
      rw [rowLoop_step_fail_nocont env cols parts rest cargs incr failed total w
        hcols hdry hopen hof hnz]
      exact ⟨_, rfl, rfl, rfl⟩
    | j' + 1 =>
      have h0 : env.statuses w.nInvoked = 0 := by
        have := hzero 0 (by omega)
        rwa [Nat.add_zero] at this
      rw [rowLoop_step_ok env false cols parts rest cargs incr failed total w
        hcols hdry hopen hof h0]
      obtain ⟨w', hrun, hninv, hrv⟩ :=
        ih { cargs with path := PyVal.vlist parts } (incr + 1) failed total
          { w with openFiles := [], nInvoked := w.nInvoked + 1, rv := total,
                   errLines := w.errLines ++ (if failed ≠ 0 then [failMsg failed] else []) }
          j' hdry rfl (by simpa using hj)
          (fun i hi => by
            have := hzero (i + 1) (by omega)
            have harith : w.nInvoked + (i + 1) = w.nInvoked + 1 + i := by omega
            rwa [harith] at this)
          (by
            have harith : w.nInvoked + (j' + 1) = w.nInvoked + 1 + j' := by omega
            rwa [harith] at hnz)
      refine ⟨w', hrun, ?_, ?_⟩
      · rw [hninv]
        show w.nInvoked + 1 + j' + 1 = w.nInvoked + (j' + 1) + 1
        omega
      · rw [hrv]
        have harith : w.nInvoked + 1 + j' = w.nInvoked + (j' + 1) := by omega
        rw [harith]

/-! ## Phase lemmas for `parse_bulk`'s setup -/

theorem alookup_aerase_ne {α : Type} (d : List (String × α)) (k k' : String)
    (h : ¬ k = k') : alookup (aerase d k) k' = alookup d k' := by
  induction d with
  | nil => rfl
  | cons e es ih =>
    have h' : ¬ k' = k := fun hh => h hh.symm
    by_cases he : e.1 = k
    · have he' : ¬ e.1 = k' := fun hh => h (he.symm.trans hh)
      simp [aerase, alookup, he, he', h, h']
    · by_cases he'' : e.1 = k' <;> simp [aerase, alookup, he, he'', ih, h, h']

theorem setattr_dry_run_other (s : CmdArgs) (k : String) (v : PyVal)
    (hk : ¬ k = "dry_run") : (s.setattr k v).dry_run = s.dry_run := by
  by_cases h1 : k = "path"
  · simp [CmdArgs.setattr, h1]
  · by_cases h2 : k = "JAVA_DEBUG"
    · simp [CmdArgs.setattr, h1, h2]
    · simp [CmdArgs.setattr, h1, h2, hk]

/-- No key handled by `add` is `dry_run`, so `add` never changes it. -/
theorem add_dry_run_frame (s : CmdArgs) (k : String) (v : PyVal) (s' : CmdArgs)
    (h : s.add k v = Except.ok s') : s'.dry_run = s.dry_run := by
  unfold CmdArgs.add at h
  by_cases hk : k ∈ py_keys
  · rw [if_pos hk] at h
    have hkd : ¬ k = "dry_run" := by
      intro he
      rw [he] at hk
      exact absurd hk (by decide)
    split at h <;> injection h with h <;> rw [← h] <;>
      exact setattr_dry_run_other s k v hkd
  · rw [if_neg hk] at h
    by_cases hacc : k ∈ s.accepts
    · rw [if_pos hacc] at h
      split at h <;> injection h with h <;> rw [← h]
    · rw [if_neg hacc] at h
      cases h

theorem foldlM_add_dry_run (l : List (String × PyVal)) :
    ∀ (c c' : CmdArgs), l.foldlM (fun c kv => c.add kv.1 kv.2) c = Except.ok c' →
      c'.dry_run = c.dry_run := by
  induction l with
  | nil =>
    intro c c' h
    injection h with h
    rw [h]
  | cons kv l ih =>
    intro c c' h
    rw [List.foldlM_cons] at h
    cases hadd : c.add kv.1 kv.2 with
    | error e =>
      rw [hadd] at h
      cases h
    | ok c₁ =>
      rw [hadd] at h
      exact (ih c₁ c' h).trans (add_dry_run_frame c kv.1 kv.2 c₁ hadd)

/-- What the `dry_run` phase computes (lines 696-701). -/
theorem popDryRun_spec (bulk : Dict) (cargs : CmdArgs) (bulk' : Dict) (cargs' : CmdArgs)
    (h : popDryRun bulk cargs = (bulk', cargs')) :
    bulk' = aerase bulk "dry_run"
    ∧ cargs'.dry_run =
        (match alookup bulk "dry_run" with
         | Option.some v =>
           if strToLower v.pyStr ≠ "false" then PyVal.vstr v.pyStr else PyVal.vbool false
         | Option.none => PyVal.vbool false) := by
  unfold popDryRun at h
  simp only [apop] at h
  cases hdv : alookup bulk "dry_run" with
  | none =>
    rw [hdv] at h
    dsimp only at h
    injection h with h1 h2
    rw [← h1, ← h2]
    exact ⟨rfl, rfl⟩
  | some v =>
    rw [hdv] at h
    dsimp only at h
    by_cases hlf : strToLower v.pyStr ≠ "false"
    · rw [if_pos hlf] at h
      injection h with h1 h2
      rw [← h1, ← h2]
      dsimp only
      rw [if_pos hlf]
      exact ⟨rfl, rfl⟩
    · rw [if_neg hlf] at h
      injection h with h1 h2
      rw [← h1, ← h2]
      dsimp only
      rw [if_neg hlf]
      exact ⟨rfl, rfl⟩

/-- What the `continue` phase computes (lines 703-707). -/
theorem popContinue_spec (bulk : Dict) (cargs : CmdArgs) (cont : Bool)
    (bulk' : Dict) (cargs' : CmdArgs)
    (h : popContinue bulk cargs = Except.ok (cont, bulk', cargs')) :
    cont = (alookup bulk "continue").isSome
    ∧ bulk' = aerase bulk "continue"
    ∧ cargs'.dry_run = cargs.dry_run
    ∧ (∀ v, alookup bulk "continue" = Option.some v → v.truthy = true →
        cargs.add "c" NO_ARG = Except.ok cargs')
    ∧ ((alookup bulk "continue" = Option.none
        ∨ ∃ v, alookup bulk "continue" = Option.some v ∧ v.truthy = false) →
        cargs' = cargs) := by
  unfold popContinue at h
  simp only [apop] at h
  cases hcv : alookup bulk "continue" with
  | none =>
    rw [hcv] at h
    dsimp only at h
    injection h with h
    injection h with h1 h
    injection h with h2 h3
    rw [← h1, ← h2, ← h3]
    exact ⟨rfl, rfl, rfl, fun v hv _ => Option.noConfusion hv, fun _ => rfl⟩
  | some c =>
    rw [hcv] at h
    dsimp only at h
    by_cases hct : c.truthy
    · rw [if_pos hct] at h
      cases hadd : cargs.add "c" NO_ARG with
      | error e =>
        rw [hadd] at h
        cases h
      | ok cargs₁ =>
        rw [hadd] at h
        dsimp only at h
        injection h with h
        injection h with h1 h
        injection h with h2 h3
        rw [← h1, ← h2, ← h3]
        refine ⟨rfl, rfl, add_dry_run_frame cargs "c" NO_ARG cargs₁ hadd, ?_, ?_⟩
        · intro v hv _
          rfl
        · intro hcase
          rcases hcase with hnone | ⟨v, hv, hvf⟩
          · exact Option.noConfusion hnone
          · injection hv with hv
            rw [← hv] at hvf
            rw [hct] at hvf
            cases hvf
    · have hcf : c.truthy = false := by
        revert hct
        cases c.truthy <;> simp
      rw [if_neg hct] at h
      injection h with h
      injection h with h1 h
      injection h with h2 h3
      rw [← h1, ← h2, ← h3]
      refine ⟨rfl, rfl, rfl, ?_, fun _ => rfl⟩
      intro v hv hvt
      injection hv with hv
      rw [← hv] at hvt
      rw [hcf] at hvt
      cases hvt

/-- What the `skip` phase computes (lines 709-710). -/
theorem popSkip_spec (bulk : Dict) (cargs : CmdArgs) (bulk' : Dict) (cargs' : CmdArgs)
    (h : popSkip bulk cargs = (bulk', cargs')) :
    bulk' = aerase bulk "skip"
    ∧ cargs'.dry_run = cargs.dry_run
    ∧ cargs'.java_additional = cargs.java_additional
    ∧ ((alookup bulk "skip").isNone → cargs' = cargs) := by
  unfold popSkip at h
  simp only [apop] at h
  cases hsv : alookup bulk "skip" with
  | none =>
    rw [hsv] at h
    injection h with h1 h2
    rw [← h1, ← h2]
    exact ⟨rfl, rfl, rfl, fun _ => rfl⟩
  | some v =>
    rw [hsv] at h
    injection h with h1 h2
    rw [← h1, ← h2]
    exact ⟨rfl, rfl, rfl, fun hh => by simp at hh⟩

/-- A successful `parseBulkSetup` decomposes into its phases. -/
theorem parseBulkSetup_shape (bulk : Dict) (cargs : CmdArgs) (r : SetupOut)
    (h : parseBulkSetup bulk cargs = Except.ok r) :
    ∃ bulk₁ cargs₁ cont bulk₂ cargs₂ bulk₃ cargs₃ pathVal cargs',
      popDryRun bulk cargs = (bulk₁, cargs₁)
      ∧ popContinue bulk₁ cargs₁ = Except.ok (cont, bulk₂, cargs₂)
      ∧ popSkip bulk₂ cargs₂ = (bulk₃, cargs₃)
      ∧ alookup bulk₃ "path" = Option.some pathVal
      ∧ (aerase (aerase (aerase bulk₃ "path") "columns") "include").foldlM
          (fun c kv => c.add kv.1 kv.2) cargs₃ = Except.ok cargs'
      ∧ r = { cont := cont,
              cols := (alookup (aerase bulk₃ "path") "columns").getD PyVal.vnone,
              pathVal := pathVal, cargs := cargs' } := by
  unfold parseBulkSetup at h
  simp only [bind, Except.bind, pure, Except.pure, apop] at h
  rcases hpd : popDryRun bulk cargs with ⟨bulk₁, cargs₁⟩
  rw [hpd] at h
  cases hpc : popContinue bulk₁ cargs₁ with
  | error e =>
    rw [hpc] at h
    cases h
  | ok tri =>
    rcases tri with ⟨cont, bulk₂, cargs₂⟩
    rw [hpc] at h
    dsimp only at h
    rcases hps : popSkip bulk₂ cargs₂ with ⟨bulk₃, cargs₃⟩
    rw [hps] at h
    dsimp only at h
    cases hpath : alookup bulk₃ "path" with
    | none =>
      rw [hpath] at h
      cases h
    | some pathVal =>
      rw [hpath] at h
      dsimp only at h
      cases hfold : (aerase (aerase (aerase bulk₃ "path") "columns") "include").foldlM
          (fun c kv => c.add kv.1 kv.2) cargs₃ with
      | error e =>
        rw [hfold] at h
        cases h
      | ok cargs' =>
        rw [hfold] at h
        injection h with h
        exact ⟨bulk₁, cargs₁, cont, bulk₂, cargs₂, bulk₃, cargs₃, pathVal, cargs',
          rfl, hpc, hps, hpath, hfold, h.symm⟩

/-! ## Dry-run machinery (C5) -/

/-- One row under `dry_run` = a case-insensitive `"true"`: the command text
goes to `ctx.out`, nothing is invoked, written or opened. -/
theorem rowLoop_step_dry_out (env : Env) (cont : Bool) (cols : PyVal)
    (parts : List PyVal) (rest : List (List PyVal)) (cargs : CmdArgs)
    (incr total : Nat) (w : World) (t : String)
    (hcols : cols.truthy = false) (hdt : cargs.dry_run = PyVal.vstr t)
    (htr : (PyVal.vstr t).truthy = true) (hlow : strToLower t = "true")
    (hrv : w.rv = 0) :
    rowLoop env cont cols (parts :: rest) cargs incr 0 total w
      = rowLoop env cont cols rest { cargs with path := PyVal.vlist parts }
          (incr + 1) 0 total
          { w with outLines := w.outLines ++ [dryText cargs parts], rv := total } := by
  have happly : applyRow cargs cols parts
      = Except.ok { cargs with path := PyVal.vlist parts } := by
    unfold applyRow CmdArgs.set_path
    rw [if_pos (by simp [hcols])]
  show (match applyRow cargs cols parts with
    | Except.error e => Except.error (e, w)
    | Except.ok cargs =>
      match rowBody env cont cargs (incr + 1) 0 total w with
      | Except.error e => Except.error e
      | Except.ok (failed, total, w) =>
          rowLoop env cont cols rest cargs (incr + 1) failed total w) = _
  rw [happly]
  have hdt₁ : ({ cargs with path := PyVal.vlist parts } : CmdArgs).dry_run
      = PyVal.vstr t := hdt
  show (match rowBody env cont { cargs with path := PyVal.vlist parts }
        (incr + 1) 0 total w with
      | Except.error e => Except.error e
      | Except.ok (failed, total, w) =>
          rowLoop env cont cols rest { cargs with path := PyVal.vlist parts }
            (incr + 1) failed total w) = _
  unfold rowBody
  rw [hdt₁]
  rw [if_pos (by rw [htr])]
  have hbeq : (strToLower (PyVal.vstr t).pyStr == "true") = true := by
    show (strToLower t == "true") = true
    rw [hlow]
    rfl
  rw [if_pos hbeq]
  simp [hrv, dryText, CmdArgs.added_args, pathElems]

/-- One row under a dry-run filename template (any non-`"true"` value): the
command text is written to the template instantiated with the row's 1-based
sequence number; nothing is invoked or opened. -/
theorem rowLoop_step_dry_file (env : Env) (cont : Bool) (cols : PyVal)
    (parts : List PyVal) (rest : List (List PyVal)) (cargs : CmdArgs)
    (incr total : Nat) (w : World) (t a b : String)
    (hcols : cols.truthy = false) (hdt : cargs.dry_run = PyVal.vstr t)
    (htr : (PyVal.vstr t).truthy = true) (hlow : ¬ strToLower t = "true")
    (hsplit : strSplitOn t "%s" = [a, b])
    (hopen : ∀ f, env.openOk f = true) (hrv : w.rv = 0) :
    rowLoop env cont cols (parts :: rest) cargs incr 0 total w
      = rowLoop env cont cols rest { cargs with path := PyVal.vlist parts }
          (incr + 1) 0 total
          { w with
            written := w.written ++
              [(abspath w.cwd (a ++ toString (incr + 1) ++ b),
                env.argv0 ++ " import " ++ dryText cargs parts ++ "\n")],
            rv := total } := by
  have happly : applyRow cargs cols parts
      = Except.ok { cargs with path := PyVal.vlist parts } := by
    unfold applyRow CmdArgs.set_path
    rw [if_pos (by simp [hcols])]
  show (match applyRow cargs cols parts with
    | Except.error e => Except.error (e, w)
    | Except.ok cargs =>
      match rowBody env cont cargs (incr + 1) 0 total w with
      | Except.error e => Except.error e
      | Except.ok (failed, total, w) =>
          rowLoop env cont cols rest cargs (incr + 1) failed total w) = _
  rw [happly]
  have hdt₁ : ({ cargs with path := PyVal.vlist parts } : CmdArgs).dry_run
      = PyVal.vstr t := hdt
  show (match rowBody env cont { cargs with path := PyVal.vlist parts }
        (incr + 1) 0 total w with
      | Except.error e => Except.error e
      | Except.ok (failed, total, w) =>
          rowLoop env cont cols rest { cargs with path := PyVal.vlist parts }
            (incr + 1) failed total w) = _
  unfold rowBody
  rw [hdt₁]
  rw [if_pos (by rw [htr])]
  have hbeq : (strToLower (PyVal.vstr t).pyStr == "true") = false := by
    show (strToLower t == "true") = false
    exact beq_eq_false_iff_ne.mpr hlow
  rw [if_neg (by rw [hbeq]; exact Bool.false_ne_true)]
  have hfmt : pyFormatNat (PyVal.vstr t).pyStr (incr + 1)
      = Except.ok (a ++ toString (incr + 1) ++ b) := by
    show pyFormatNat t (incr + 1) = _
    unfold pyFormatNat
    rw [hsplit]
  rw [hfmt]
  simp [hopen, hrv, dryText, CmdArgs.added_args, pathElems]

theorem dryFiles_path_irrel (env : Env) (cargs : CmdArgs) (p : PyVal)
    (cwd a b : String) (rows : List (List PyVal)) : ∀ n,
    dryFiles env { cargs with path := p } cwd a b n rows
      = dryFiles env cargs cwd a b n rows := by
  induction rows with
  | nil => intro n; rfl
  | cons parts rest ih =>
    intro n
    show (abspath cwd (a ++ toString (n + 1) ++ b),
        env.argv0 ++ " import "
          ++ dryText { cargs with path := p } parts ++ "\n")
        :: dryFiles env { cargs with path := p } cwd a b (n + 1) rest
      = (abspath cwd (a ++ toString (n + 1) ++ b),
        env.argv0 ++ " import " ++ dryText cargs parts ++ "\n")
        :: dryFiles env cargs cwd a b (n + 1) rest
    rw [ih (n + 1)]
    rfl

/-- Under `dry_run` = case-insensitive `"true"`, the whole loop prints one
command text per row to `ctx.out` and never invokes the external process,
writes a file, opens a handle, logs an error or changes directory. -/
theorem rowLoop_dry_out (env : Env) (cont : Bool) (cols : PyVal) (t : String)
    (hcols : cols.truthy = false) (htr : (PyVal.vstr t).truthy = true)
    (hlow : strToLower t = "true") (rows : List (List PyVal)) :
    ∀ (cargs : CmdArgs) (incr : Nat) (w : World),
      cargs.dry_run = PyVal.vstr t → w.rv = 0 →
      ∃ cargs' w',
        rowLoop env cont cols rows cargs incr 0 0 w = Except.ok (cargs', w')
        ∧ w'.nInvoked = w.nInvoked
        ∧ w'.outLines = w.outLines ++ rows.map (dryText cargs)
        ∧ w'.written = w.written
        ∧ w'.errLines = w.errLines
        ∧ w'.openFiles = w.openFiles
        ∧ w'.cwd = w.cwd
        ∧ w'.rv = 0 := by
  induction rows with
  | nil =>
    intro cargs incr w hdt hrv
    exact ⟨cargs, w, rfl, rfl, by simp, rfl, rfl, rfl, rfl, hrv⟩
  | cons parts rest ih =>
    intro cargs incr w hdt hrv
    rw [rowLoop_step_dry_out env cont cols parts rest cargs incr 0 w t
      hcols hdt htr hlow hrv]
    obtain ⟨cargs', w', hrun, hninv, hout, hwr, herr, hof, hcwd, hrv'⟩ :=
      ih { cargs with path := PyVal.vlist parts } (incr + 1)
        { w with outLines := w.outLines ++ [dryText cargs parts], rv := 0 } hdt rfl
    refine ⟨cargs', w', hrun, hninv, ?_, hwr, herr, hof, hcwd, hrv'⟩
    rw [hout]
    show (w.outLines ++ [dryText cargs parts]) ++ rest.map (dryText cargs)
      = w.outLines ++ (dryText cargs parts :: rest.map (dryText cargs))
    simp

/-- Under a dry-run filename template, the whole loop writes one per-row
file (template instantiated with the 1-based row number, holding the
command text) and never invokes the external process, prints, opens a
handle, logs an error or changes directory. -/
theorem rowLoop_dry_file (env : Env) (cont : Bool) (cols : PyVal) (t a b : String)
    (hcols : cols.truthy = false) (htr : (PyVal.vstr t).truthy = true)
    (hlow : ¬ strToLower t = "true") (hsplit : strSplitOn t "%s" = [a, b])
    (hopen : ∀ f, env.openOk f = true) (rows : List (List PyVal)) :
    ∀ (cargs : CmdArgs) (incr : Nat) (w : World),
      cargs.dry_run = PyVal.vstr t → w.rv = 0 →
      ∃ cargs' w',
        rowLoop env cont cols rows cargs incr 0 0 w = Except.ok (cargs', w')
        ∧ w'.nInvoked = w.nInvoked
        ∧ w'.written = w.written ++ dryFiles env cargs w.cwd a b incr rows
        ∧ w'.outLines = w.outLines
        ∧ w'.errLines = w.errLines
        ∧ w'.openFiles = w.openFiles
        ∧ w'.cwd = w.cwd
        ∧ w'.rv = 0 := by
  induction rows with
  | nil =>
    intro cargs incr w hdt hrv
    exact ⟨cargs, w, rfl, rfl, by simp [dryFiles], rfl, rfl, rfl, rfl, hrv⟩
  | cons parts rest ih =>
    intro cargs incr w hdt hrv
    rw [rowLoop_step_dry_file env cont cols parts rest cargs incr 0 w t a b
      hcols hdt htr hlow hsplit hopen hrv]
    obtain ⟨cargs', w', hrun, hninv, hwr, hout, herr, hof, hcwd, hrv'⟩ :=
      ih { cargs with path := PyVal.vlist parts } (incr + 1)
        { w with
          written := w.written ++
            [(abspath w.cwd (a ++ toString (incr + 1) ++ b),
              env.argv0 ++ " import " ++ dryText cargs parts ++ "\n")],
          rv := 0 } hdt rfl
    refine ⟨cargs', w', hrun, hninv, ?_, hout, herr, hof, hcwd, hrv'⟩
    rw [hwr, dryFiles_path_irrel env cargs (PyVal.vlist parts) w.cwd a b rest (incr + 1)]
    show (w.written ++
        [(abspath w.cwd (a ++ toString (incr + 1) ++ b),
          env.argv0 ++ " import " ++ dryText cargs parts ++ "\n")])
        ++ dryFiles env cargs w.cwd a b (incr + 1) rest
      = w.written ++
        ((abspath w.cwd (a ++ toString (incr + 1) ++ b),
          env.argv0 ++ " import " ++ dryText cargs parts ++ "\n")
          :: dryFiles env cargs w.cwd a b (incr + 1) rest)
    simp

/-! ## Claim theorems for the bulk loop -/

/-- `parse_bulk` reports `cont = True` exactly when the merged descriptor
carries a `continue` key, whatever its value. -/
theorem parseBulkSetup_cont (bulk : Dict) (cargs : CmdArgs) (r : SetupOut)
    (h : parseBulkSetup bulk cargs = Except.ok r) :
    r.cont = (alookup bulk "continue").isSome := by
  obtain ⟨b1, c1, cont, b2, c2, b3, c3, pv, c', hpd, hpc, hps, hpath, hfold, hr⟩ :=
    parseBulkSetup_shape bulk cargs r h
  obtain ⟨hb1, -⟩ := popDryRun_spec bulk cargs b1 c1 hpd
  obtain ⟨hcont, -⟩ := popContinue_spec b1 c1 cont b2 c2 hpc
  rw [hr]
  show cont = (alookup bulk "continue").isSome
  rw [hcont, hb1, alookup_aerase_ne bulk "dry_run" "continue" (by decide)]

/-- C4: with `continue: true` in the descriptor, every failing row is
logged and the loop proceeds, accumulating the failure count and the
status-code sum, which are reported (`ctx.rv` ends as the sum); without a
`continue` key, the first non-zero status is fatal (`ctx.die(106, ...)`)
and later rows never run. -/
theorem bulk_continue_error_policy :
    (∀ (bulk : Dict) (cargs : CmdArgs) (r : SetupOut),
       parseBulkSetup bulk cargs = Except.ok r →
       r.cont = (alookup bulk "continue").isSome)
    ∧ (∀ (env : Env) (cols : PyVal) (rows : List (List PyVal)) (cargs : CmdArgs)
         (w : World),
         cols.truthy = false → cargs.dry_run.truthy = false →
         (∀ f, env.openOk f = true) → w.openFiles = [] →
         ∃ cargs' w',
           rowLoop env true cols rows cargs 0 0 0 w = Except.ok (cargs', w')
           ∧ w'.nInvoked = w.nInvoked + rows.length
           ∧ (rows ≠ [] → w'.rv = sumStatuses env w.nInvoked rows.length)
           ∧ (∀ i, i < rows.length → env.statuses (w.nInvoked + i) ≠ 0 →
               contMsg (env.statuses (w.nInvoked + i)) ∈ w'.errLines)
           ∧ (rows ≠ [] → countFails env w.nInvoked rows.length ≠ 0 →
               failMsg (countFails env w.nInvoked rows.length) ∈ w'.errLines))
    ∧ (∀ (env : Env) (cols : PyVal) (rows : List (List PyVal)) (cargs : CmdArgs)
         (w : World) (j : Nat),
         cols.truthy = false → cargs.dry_run.truthy = false →
         (∀ f, env.openOk f = true) → w.openFiles = [] →
         j < rows.length →
         (∀ i, i < j → env.statuses (w.nInvoked + i) = 0) →
         env.statuses (w.nInvoked + j) ≠ 0 →
         ∃ w', rowLoop env false cols rows cargs 0 0 0 w
             = Except.error (PyErr.die 106, w')
           ∧ w'.nInvoked = w.nInvoked + j + 1
           ∧ w'.rv = env.statuses (w.nInvoked + j)) := by
  refine ⟨parseBulkSetup_cont, ?_, ?_⟩
  · intro env cols rows cargs w hcols hdry hopen hof
    obtain ⟨cargs', w', hrun, hninv, hof', hrv, hnil, hmono, hlog, hfail⟩ :=
      rowLoop_cont env cols hcols hopen rows cargs 0 0 0 w hdry hof
    refine ⟨cargs', w', hrun, hninv, ?_, hlog, ?_⟩
    · intro hne
      rw [hrv hne, Nat.zero_add]
    · intro hne hcf
      have := hfail hne (by rwa [Nat.zero_add])
      rwa [Nat.zero_add] at this
  · intro env cols rows cargs w j hcols hdry hopen hof hj hzero hnz
    exact rowLoop_nocont env cols hcols hopen rows cargs 0 0 0 w j hdry hof hj hzero hnz

/-- C4 at a concrete input: a descriptor with `continue: false` still sets
`cont`; one failing row out of three under `continue` yields failure count 1,
aggregate status 7 and both log lines; without `continue` the same statuses
die with code 106 after the second row. -/
theorem bulk_continue_error_policy_witness :
    (∃ r, parseBulkSetup [("continue", PyVal.vbool false), ("path", PyVal.vstr "r.txt")]
        c4cargs = Except.ok r ∧ r.cont = true)
    ∧ (∃ cargs' w',
        rowLoop c4env true PyVal.vnone c4rows c4cargs 0 0 0 c4world
          = Except.ok (cargs', w')
        ∧ w'.nInvoked = 3 ∧ w'.rv = 7
        ∧ contMsg 7 ∈ w'.errLines ∧ failMsg 1 ∈ w'.errLines)
    ∧ (∃ w', rowLoop c4env false PyVal.vnone c4rows c4cargs 0 0 0 c4world
          = Except.error (PyErr.die 106, w')
        ∧ w'.nInvoked = 2 ∧ w'.rv = 7) := by
  obtain ⟨hsetup, hcont, hnocont⟩ := bulk_continue_error_policy
  refine ⟨?_, ?_, ?_⟩
  · obtain ⟨r, hr⟩ :
        ∃ r, parseBulkSetup [("continue", PyVal.vbool false), ("path", PyVal.vstr "r.txt")]
          c4cargs = Except.ok r := ⟨_, rfl⟩
    exact ⟨r, hr, hsetup _ c4cargs r hr⟩
  · obtain ⟨cargs', w', hrun, hninv, hrv, hlog, hfail⟩ :=
      hcont c4env PyVal.vnone c4rows c4cargs c4world rfl rfl (fun _ => rfl) rfl
    refine ⟨cargs', w', hrun, hninv, hrv (List.cons_ne_nil _ _), ?_, ?_⟩
    · exact hlog 1 (by decide) (by decide)
    · exact hfail (List.cons_ne_nil _ _) (by decide)
  · obtain ⟨w', hrun, hninv, hrv⟩ :=
      hnocont c4env PyVal.vnone c4rows c4cargs c4world 1 rfl rfl (fun _ => rfl) rfl
        (by decide)
        (fun i hi => by
          match i, hi with
          | 0, _ => rfl)
        (by decide)
    exact ⟨w', hrun, hninv, hrv⟩

/-- `add` on a fresh Java-side key appends its rendition to
`__java_additional`. -/
theorem add_java_new (s : CmdArgs) (k : String) (v : PyVal) (s' : CmdArgs)
    (hk : ¬ k ∈ py_keys) (hacc : k ∈ s.accepts)
    (hidx : alookup s.added k = Option.none)
    (h : s.add k v = Except.ok s') :
    s'.java_additional = s.java_additional ++ build_arg_list k v
    ∧ s'.py_additional = s.py_additional := by
  unfold CmdArgs.add at h
  rw [if_neg hk, if_pos hacc, hidx] at h
  injection h with h
  rw [← h]
  exact ⟨rfl, rfl⟩

/-- C10: a `continue` key of any value — `false` included — arms non-fatal
error handling (the loop then survives every non-zero status), while the
`-c` flag reaches the Java argument list exactly when the declared value is
truthy. -/
theorem bulk_continue_any_value :
    (∀ (bulk : Dict) (cargs : CmdArgs) (r : SetupOut) (v : PyVal),
       parseBulkSetup bulk cargs = Except.ok r →
       alookup bulk "continue" = Option.some v →
       r.cont = true)
    ∧ (∀ (bulk : Dict) (cargs : CmdArgs) (cont : Bool) (bulk' : Dict)
         (cargs' : CmdArgs) (v : PyVal),
         popContinue bulk cargs = Except.ok (cont, bulk', cargs') →
         alookup bulk "continue" = Option.some v →
         "c" ∈ cargs.accepts → alookup cargs.added "c" = Option.none →
         cargs'.java_additional
           = cargs.java_additional ++ (if v.truthy then ["-c"] else []))
    ∧ (∀ (env : Env) (cols : PyVal) (rows : List (List PyVal)) (cargs : CmdArgs)
         (w : World),
         cols.truthy = false → cargs.dry_run.truthy = false →
         (∀ f, env.openOk f = true) → w.openFiles = [] →
         ∃ cargs' w',
           rowLoop env true cols rows cargs 0 0 0 w = Except.ok (cargs', w')
           ∧ w'.nInvoked = w.nInvoked + rows.length) := by
  refine ⟨?_, ?_, ?_⟩
  · intro bulk cargs r v h hv
    rw [parseBulkSetup_cont bulk cargs r h, hv]
    rfl
  · intro bulk cargs cont bulk' cargs' v h hv hacc hidx
    obtain ⟨-, -, -, hadd, hid⟩ := popContinue_spec bulk cargs cont bulk' cargs' h
    cases htr : v.truthy with
    | true =>
      obtain ⟨hja, -⟩ :=
        add_java_new cargs "c" NO_ARG cargs' (by decide) hacc hidx (hadd v hv htr)
      rw [hja, if_pos rfl]
      rfl
    | false =>
      rw [hid (Or.inr ⟨v, hv, htr⟩)]
      simp
  · intro env cols rows cargs w hcols hdry hopen hof
    obtain ⟨cargs', w', hrun, hninv, -, -, -, -, -, -⟩ :=
      rowLoop_cont env cols hcols hopen rows cargs 0 0 0 w hdry hof
    exact ⟨cargs', w', hrun, hninv⟩

/-- C10 at a concrete input: `continue: false` still arms non-fatal error
handling (and the loop with a failing row finishes all three rows), `-c` is
forwarded for a truthy `continue` and not for `false`. -/
theorem bulk_continue_any_value_witness :
    (∃ r, parseBulkSetup [("continue", PyVal.vbool false), ("path", PyVal.vstr "s.txt")]
        c4cargs = Except.ok r ∧ r.cont = true)
    ∧ (∃ cont bulk' cargs',
        popContinue [("continue", PyVal.vbool true)] c4cargs
          = Except.ok (cont, bulk', cargs')
        ∧ cargs'.java_additional = ["-c"])
    ∧ (∃ cont bulk' cargs',
        popContinue [("continue", PyVal.vbool false)] c4cargs
          = Except.ok (cont, bulk', cargs')
        ∧ cargs'.java_additional = [])
    ∧ (∃ cargs' w',
        rowLoop c4env true PyVal.vnone c4rows c4cargs 0 0 0 c4world
          = Except.ok (cargs', w') ∧ w'.nInvoked = 3) := by
  obtain ⟨hcp, hfw, hloop⟩ := bulk_continue_any_value
  refine ⟨?_, ?_, ?_, ?_⟩
  · obtain ⟨r, hr⟩ : ∃ r, parseBulkSetup [("continue", PyVal.vbool false),
        ("path", PyVal.vstr "s.txt")] c4cargs = Except.ok r := ⟨_, rfl⟩
    exact ⟨r, hr, hcp _ c4cargs r (PyVal.vbool false) hr rfl⟩
  · obtain ⟨t, ht⟩ : ∃ t, popContinue [("continue", PyVal.vbool true)] c4cargs
        = Except.ok t := ⟨_, rfl⟩
    obtain ⟨cont, bulk', cargs'⟩ := t
    exact ⟨cont, bulk', cargs', ht,
      hfw _ c4cargs cont bulk' cargs' (PyVal.vbool true) ht rfl (by decide) rfl⟩
  · obtain ⟨t, ht⟩ : ∃ t, popContinue [("continue", PyVal.vbool false)] c4cargs
        = Except.ok t := ⟨_, rfl⟩
    obtain ⟨cont, bulk', cargs'⟩ := t
    exact ⟨cont, bulk', cargs', ht,
      hfw _ c4cargs cont bulk' cargs' (PyVal.vbool false) ht rfl (by decide) rfl⟩
  · obtain ⟨cargs', w', hrun, hninv⟩ :=
      hloop c4env PyVal.vnone c4rows c4cargs c4world rfl rfl (fun _ => rfl) rfl
    exact ⟨cargs', w', hrun, hninv⟩

/-- C5 (corrected): a `dry_run` value whose string form is non-`"false"`
lands on the instance as that string; when the string is additionally
truthy (non-empty), the loop never invokes the external process — a
case-insensitive `"true"` prints each row's rendered command text to the
orchestrator's output stream, any other such value is a filename template
whose single `%s` receives the 1-based row number and each row's command
text goes to that per-row file. -/
theorem bulk_dry_run_no_invocation :
    (∀ (bulk : Dict) (cargs : CmdArgs) (bulk' : Dict) (cargs' : CmdArgs) (v : PyVal),
       popDryRun bulk cargs = (bulk', cargs') →
       alookup bulk "dry_run" = Option.some v →
       ¬ strToLower v.pyStr = "false" →
       cargs'.dry_run = PyVal.vstr v.pyStr)
    ∧ (∀ (env : Env) (cont : Bool) (cols : PyVal) (t : String)
         (rows : List (List PyVal)) (cargs : CmdArgs) (incr : Nat) (w : World),
         cols.truthy = false → (PyVal.vstr t).truthy = true →
         strToLower t = "true" →
         cargs.dry_run = PyVal.vstr t → w.rv = 0 →
         ∃ cargs' w',
           rowLoop env cont cols rows cargs incr 0 0 w = Except.ok (cargs', w')
           ∧ w'.nInvoked = w.nInvoked
           ∧ w'.outLines = w.outLines ++ rows.map (dryText cargs)
           ∧ w'.written = w.written)
    ∧ (∀ (env : Env) (cont : Bool) (cols : PyVal) (t a b : String)
         (rows : List (List PyVal)) (cargs : CmdArgs) (incr : Nat) (w : World),
         cols.truthy = false → (PyVal.vstr t).truthy = true →
         ¬ strToLower t = "true" → strSplitOn t "%s" = [a, b] →
         (∀ f, env.openOk f = true) →
         cargs.dry_run = PyVal.vstr t → w.rv = 0 →
         ∃ cargs' w',
           rowLoop env cont cols rows cargs incr 0 0 w = Except.ok (cargs', w')
           ∧ w'.nInvoked = w.nInvoked
           ∧ w'.written = w.written ++ dryFiles env cargs w.cwd a b incr rows
           ∧ w'.outLines = w.outLines) := by
  refine ⟨?_, ?_, ?_⟩
  · intro bulk cargs bulk' cargs' v h hv hne
    obtain ⟨-, hdr⟩ := popDryRun_spec bulk cargs bulk' cargs' h
    rw [hdr, hv]
    dsimp only
    rw [if_pos hne]
  · intro env cont cols t rows cargs incr w hcols htr hlow hdt hrv
    obtain ⟨cargs', w', hrun, hninv, hout, hwr, -, -, -, -⟩ :=
      rowLoop_dry_out env cont cols t hcols htr hlow rows cargs incr w hdt hrv
    exact ⟨cargs', w', hrun, hninv, hout, hwr⟩
  · intro env cont cols t a b rows cargs incr w hcols htr hlow hsplit hopen hdt hrv
    obtain ⟨cargs', w', hrun, hninv, hwr, hout, -, -, -, -⟩ :=
      rowLoop_dry_file env cont cols t a b hcols htr hlow hsplit hopen rows
        cargs incr w hdt hrv
    exact ⟨cargs', w', hrun, hninv, hwr, hout⟩

/-- C5 at a concrete input: `dry_run: True` over three rows prints the three
rendered command lines and invokes nothing; the template `/tmp/%s.sh` writes
exactly `/tmp/1.sh`, `/tmp/2.sh`, `/tmp/3.sh` and invokes nothing. -/
theorem bulk_dry_run_no_invocation_witness :
    (∃ cargs' w',
      rowLoop c4env false PyVal.vnone c4rows c5cargsOut 0 0 0 c4world
        = Except.ok (cargs', w')
      ∧ w'.nInvoked = 0
      ∧ w'.outLines = ["\"a.tif\"", "\"b.tif\"", "\"c.tif\""]
      ∧ w'.written = [])
    ∧ (∃ cargs' w',
      rowLoop c4env false PyVal.vnone c4rows c5cargsFile 0 0 0 c4world
        = Except.ok (cargs', w')
      ∧ w'.nInvoked = 0
      ∧ w'.written.map Prod.fst = ["/tmp/1.sh", "/tmp/2.sh", "/tmp/3.sh"]
      ∧ w'.outLines = []) := by
  obtain ⟨-, hout, hfile⟩ := bulk_dry_run_no_invocation
  constructor
  · obtain ⟨cargs', w', hrun, hninv, ho, hw⟩ :=
      hout c4env false PyVal.vnone "True" c4rows c5cargsOut 0 c4world
        rfl rfl rfl rfl rfl
    refine ⟨cargs', w', hrun, hninv, ?_, hw⟩
    rw [ho]
    rfl
  · obtain ⟨cargs', w', hrun, hninv, hw, ho⟩ :=
      hfile c4env false PyVal.vnone "/tmp/%s.sh" "/tmp/" ".sh" c4rows c5cargsFile 0
        c4world rfl rfl (by decide) (by decide) (fun _ => rfl) rfl rfl
    refine ⟨cargs', w', hrun, hninv, ?_, ho⟩
    rw [hw]
    rfl

/-- C5 counterexample: the descriptor value `dry_run: ''` stringifies to a
non-`"false"` value, so the claim covers it; yet the run invokes the
external process once and neither prints a command line nor writes a
per-row file. -/
theorem bulk_dry_run_counterexample :
    alookup [("dry_run", PyVal.vstr ""), ("path", PyVal.vstr "rows.txt")] "dry_run"
      = Option.some (PyVal.vstr "")
    ∧ ¬ strToLower (PyVal.vstr "").pyStr = "false"
    ∧ (bulk_import c5cexEnv 4 c5cexCargs c4world).2.nInvoked = 1
    ∧ (bulk_import c5cexEnv 4 c5cexCargs c4world).2.outLines = []
    ∧ (bulk_import c5cexEnv 4 c5cexCargs c4world).2.written = [] := by
  exact ⟨rfl, by decide, rfl, rfl, rfl⟩

/-- C9: the `finally` of `bulk_import` restores the original working
directory on every exit path — but when opening the error log raises after
the output log was already opened, `do_import`'s local `out`/`err` are
still unassigned, its `finally` closes nothing, and the run aborts with the
output-log handle left open. -/
theorem bulk_cwd_restored_but_handle_leaked :
    (∀ (env : Env) (fuel : Nat) (cargs : CmdArgs) (w : World),
       (bulk_import env fuel cargs w).2.cwd = w.cwd)
    ∧ (bulk_import c9env 4 c9cargs c4world).1
        = Except.error (PyErr.ioError "/w/err.log")
    ∧ (bulk_import c9env 4 c9cargs c4world).2.openFiles = ["/w/out.log"]
    ∧ (bulk_import c9env 4 c9cargs c4world).2.cwd = "/w" := by
  refine ⟨?_, rfl, rfl, rfl⟩
  intro env fuel cargs w
  unfold bulk_import
  cases hb : bulkBody env fuel cargs w with
  | ok p =>
    rcases p with ⟨c, w'⟩
    rfl
  | error e =>
    rcases e with ⟨pe, w'⟩
    rfl

end OmeroImport
